import Mathlib

set_option maxHeartbeats 1000000
set_option maxRecDepth 8000

/-!
Verification of `scripts/build-dbt.py`, the dbt release pipeline script.

Strings are modelled as lists of characters (`Str`), Python `int` values as
`Nat`, filesystem paths as lists of path components, and the side
effects of the pipeline as a state-and-trace monad `M` over an oracle `World` that
answers every external-process invocation.
-/

deriving instance DecidableEq for Except

namespace BuildDbt

/-- Python strings are modelled as lists of characters. -/
abbrev Str := List Char

/-- Turn a Lean string literal into the character-list model. -/
def str (s : String) : Str := s.data

/-- Model of the regex character class `\d` (the script only ever feeds it
ASCII version strings). -/
def isDig (c : Char) : Bool := 48 ≤ c.toNat && c.toNat ≤ 57

/-- Model of the regex character class `[a-z]`. -/
def isLow (c : Char) : Bool := 97 ≤ c.toNat && c.toNat ≤ 122

/-- The decimal digit characters. -/
def digitCh : Nat → Char
  | 0 => '0' | 1 => '1' | 2 => '2' | 3 => '3' | 4 => '4'
  | 5 => '5' | 6 => '6' | 7 => '7' | 8 => '8' | 9 => '9'
  | _ => '*'

/-- Decimal rendering of a natural number, fuel-based so that it reduces. -/
def natToCharsAux : Nat → Nat → Str
  | 0, _ => []
  | fuel + 1, n =>
    if n < 10 then [digitCh n]
    else natToCharsAux fuel (n / 10) ++ [digitCh (n % 10)]

/-- Decimal rendering of a natural number, as Python renders an `int` inside
an f-string (no sign, no leading zeros, `0` rendered as `"0"`). -/
def natToChars (n : Nat) : Str := natToCharsAux (n + 1) n

/-- Numeric value of a decimal digit character, as `int()` reads it. -/
def charToDigit (c : Char) : Nat := c.toNat - 48

/-- Model of Python `int(s)` on a string of decimal digits. -/
def digitsToNat (l : Str) : Nat := l.foldl (fun a c => a * 10 + charToDigit c) 0

/-- The captured groups of `VERSION_PATTERN`, as returned by
`match.groupdict()`: every capture is a string, the optional groups are
`None` when they did not participate in the match. -/
structure VGroups where
  major : Str
  minor : Str
  patch : Str
  prerelease : Option Str
  num : Option Str
deriving DecidableEq

/-- Model of `VERSION_PATTERN.match(raw)` for the pattern
`(?P<major>\d+)\.(?P<minor>\d+)\.(?P<patch>\d+)((?P<prerelease>[a-z]+)(?P<num>\d+))?`.
`re.match` anchors at the start of the string only.  Each `\d+` / `[a-z]+`
is modelled by a maximal `takeWhile` run: the character classes of adjacent
groups are disjoint (digits vs `.`, letters vs digits), so the greedy
backtracking regex engine accepts exactly the maximal runs.  The optional
group never causes the whole match to fail; trailing text is ignored. -/
def versionPatternMatch (s : Str) : Option VGroups :=
  let a := s.takeWhile isDig
  let r1 := s.dropWhile isDig
  if a = [] then none else
  match r1 with
  | '.' :: r2 =>
    let b := r2.takeWhile isDig
    let r3 := r2.dropWhile isDig
    if b = [] then none else
    match r3 with
    | '.' :: r4 =>
      let c := r4.takeWhile isDig
      let r5 := r4.dropWhile isDig
      if c = [] then none else
      let tg := r5.takeWhile isLow
      let r6 := r5.dropWhile isLow
      let ds := r6.takeWhile isDig
      if tg = [] ∨ ds = [] then some ⟨a, b, c, none, none⟩
      else some ⟨a, b, c, some tg, some ds⟩
    | _ => none
  | _ => none

/-- The `Version` class: `raw` keeps the whole original input string, the
numeric fields are the parsed groups, and the two prerelease fields are
populated together or not at all. -/
structure Version where
  raw : Str
  major : Nat
  minor : Nat
  patch : Nat
  prerelease : Option Str
  num : Option Nat
deriving DecidableEq

/-- Model of `Version.__init__`: match the pattern against `raw` (a failed
match raises, modelled as `none`), read the three numeric groups with
`int()`, and populate `prerelease`/`num` only when the `num` group matched. -/
def Version.init (raw : Str) : Option Version :=
  match versionPatternMatch raw with
  | none => none
  | some groups =>
    match groups.num with
    | some numStr =>
      some { raw := raw, major := digitsToNat groups.major,
             minor := digitsToNat groups.minor, patch := digitsToNat groups.patch,
             prerelease := groups.prerelease, num := some (digitsToNat numStr) }
    | none =>
      some { raw := raw, major := digitsToNat groups.major,
             minor := digitsToNat groups.minor, patch := digitsToNat groups.patch,
             prerelease := none, num := none }

/-- Model of Python `str.title()`: a cased character following a non-cased
character is upper-cased, every other cased character is lower-cased. -/
def pyTitleAux : Bool → Str → Str
  | _, [] => []
  | prevCased, c :: cs =>
    if c.isAlpha then
      (if prevCased then c.toLower else c.toUpper) :: pyTitleAux true cs
    else
      c :: pyTitleAux false cs

/-- Model of Python `str.title()`. -/
def pyTitle (s : Str) : Str := pyTitleAux false s

/-- Model of `Version.homebrew_class_name`. -/
def Version.homebrew_class_name (v : Version) : Str :=
  let name := str "DbtAT" ++ natToChars v.major ++ natToChars v.minor ++ natToChars v.patch
  match v.prerelease, v.num with
  | some p, some n => name ++ pyTitle p ++ natToChars n
  | _, _ => name

/-- Model of `Version.homebrew_filename`. -/
def Version.homebrew_filename (v : Version) : Str :=
  let version_str := natToChars v.major ++ str "." ++ natToChars v.minor ++ str "." ++ natToChars v.patch
  let version_str :=
    match v.prerelease, v.num with
    | some p, some n => version_str ++ str "-" ++ p ++ natToChars n
    | _, _ => version_str
  str "dbt@" ++ version_str ++ str ".rb"

/-- A well-formed `M.N.P` core version string, with the components rendered
as Python renders ints; used to quantify over all valid version inputs. -/
def coreStr (M N P : Nat) : Str :=
  natToChars M ++ '.' :: natToChars N ++ '.' :: natToChars P

/-!
The Homebrew formula template.  In Python, `DBT_HOMEBREW_FORMULA.format(...)`
substitutes the five fields into the fixed template; we model the template
literal as the fixed chunks between the format fields, and `format` as their
concatenation with the field values.  Braces that are literal text in the
Ruby code are written with `\x7b`/`\x7d` escapes.
-/

/-- Chunk of `DBT_HOMEBREW_FORMULA` before `{formula_name}`. -/
def FORMULA_PRE_NAME : Str := str "\nclass "

/-- Chunk of `DBT_HOMEBREW_FORMULA` between `{formula_name}` and `{url_data}`. -/
def FORMULA_PRE_URL : Str :=
  str " < Formula\n  include Language::Python::Virtualenv\n\n  desc \"Data build tool\"\n  homepage \"https://github.com/fishtown-analytics/dbt\"\n  "

/-- Chunk of `DBT_HOMEBREW_FORMULA` between `{url_data}` and `{hash_data}`. -/
def FORMULA_PRE_HASH : Str := str "\n  "

/-- Chunk of `DBT_HOMEBREW_FORMULA` between `{hash_data}` and `{version}`. -/
def FORMULA_PRE_VERSION : Str := str "\n  version \""

/-- Chunk of `DBT_HOMEBREW_FORMULA` between `{version}` and `{dependencies}`. -/
def FORMULA_PRE_DEPS : Str :=
  str "\"\n  revision 1\n\n  depends_on \"python3\"\n  depends_on \"openssl\"\n  depends_on \"postgresql\"\n\n  bottle do\n    root_url \"http://bottles.getdbt.com\"\n    # bottle hashes + versions go here\n  end\n\n  "

/-- Chunk of `DBT_HOMEBREW_FORMULA` between `{dependencies}` and `{trailer}`. -/
def FORMULA_PRE_TRAILER : Str := str "\n\n  "

/-- Chunk of `DBT_HOMEBREW_FORMULA` after `{trailer}`. -/
def FORMULA_END : Str := str "\nend\n"

/-- The fixed `DBT_HOMEBREW_TRAILER` literal (the `install` and `test`
blocks, identical for every formula). -/
def DBT_HOMEBREW_TRAILER : Str :=
  str "\n  def install\n    venv = virtualenv_create(libexec, \"python3\")\n\n    res = resources.map(&:name).to_set\n\n    res.each do |r|\n      venv.pip_install resource(r)\n    end\n\n    venv.pip_install_and_link buildpath\n\n    bin.install_symlink \"#\x7blibexec\x7d/bin/dbt\" => \"dbt\"\n  end\n\n  test do\n    (testpath/\"dbt_project.yml\").write(\"\x7bname: \x27test\x27, version: \x270.0.1\x27, profile: \x27default\x27\x7d\")\n    (testpath/\".dbt/profiles.yml\").write(\n      \"\x7bdefault: \x7boutputs: \x7bdefault: \x7btype: \x27postgres\x27, threads: 1, host: \x27localhost\x27, port: 5432,\n      user: \x27root\x27, pass: \x27password\x27, dbname: \x27test\x27, schema: \x27test\x27\x7d\x7d, target: \x27default\x27\x7d\x7d\",\n    )\n    (testpath/\"models/test.sql\").write(\"select * from test\")\n    system \"#\x7bbin\x7d/dbt\", \"test\"\n  end\n"

/-- The `DbtHomebrewTemplate` dataclass. -/
structure DbtHomebrewTemplate where
  url_data : Str
  hash_data : Str
  dependencies : Str
  version : Version
deriving DecidableEq

/-- Model of `DbtHomebrewTemplate.contents`: pick the class name (the
class-name projection of the version when versioned, the fixed name `Dbt`
otherwise) and interpolate the template; `{version}` is rendered with
`str(self.version)`, which returns the raw input string. -/
def DbtHomebrewTemplate.contents (t : DbtHomebrewTemplate) (versioned : Bool) : Str :=
  let formula_name := if versioned then t.version.homebrew_class_name else str "Dbt"
  FORMULA_PRE_NAME ++ formula_name ++ FORMULA_PRE_URL ++ t.url_data ++
    FORMULA_PRE_HASH ++ t.hash_data ++ FORMULA_PRE_VERSION ++ t.version.raw ++
    FORMULA_PRE_DEPS ++ t.dependencies ++ FORMULA_PRE_TRAILER ++
    DBT_HOMEBREW_TRAILER ++ FORMULA_END

/-! The poet-output scanner `_extract_parts`. -/

/-- Model of the Python string method split on a newline separator: split
at every newline, keeping
empty pieces. -/
def splitLines : Str → List Str
  | [] => [[]]
  | c :: rest =>
    if c = '\n' then [] :: splitLines rest
    else
      match splitLines rest with
      | [] => [[c]]
      | h :: t => (c :: h) :: t

/-- Default whitespace stripped by Python `str.strip()`. -/
def isSpace (c : Char) : Bool :=
  c = ' ' || c = '\t' || c = '\n' || c = '\r' || c = '\x0b' || c = '\x0c'

/-- Model of Python `str.strip()`. -/
def pyStrip (s : Str) : Str :=
  ((s.dropWhile isSpace).reverse.dropWhile isSpace).reverse

/-- The opening marker of the resource block. -/
def RESOURCE_MARKER : Str := str "resource \"dbt\" do"

/-- The loop body of `_extract_parts`: scan the lines, start collecting
after the `resource "dbt" do` line, stop at the first collected line that
strips to `end`, and yield every stripped line in between. -/
def extractLoop : List Str → Bool → List Str
  | [], _ => []
  | line :: rest, collecting =>
    let stripped := pyStrip line
    if collecting then
      if stripped = str "end" then []
      else stripped :: extractLoop rest true
    else
      if stripped = RESOURCE_MARKER then extractLoop rest true
      else extractLoop rest false

/-- Model of `_extract_parts`: the list of lines the generator yields. -/
def extract_parts (poet_data : Str) : List Str :=
  extractLoop (splitLines poet_data) false

/-- The Python error values the script can raise. -/
inductive PyError where
  | valueError (msg : Str)
  | calledProcessError (output : Str)
  | assertionError (msg : Str)
deriving DecidableEq

/-- Model of `url_data, hash_data = _extract_parts(output)`: unpacking a
generator into two names succeeds exactly when it yields exactly two items,
and raises `ValueError` otherwise. -/
def unpack2 (l : List Str) : Except PyError (Str × Str) :=
  match l with
  | [a, b] => .ok (a, b)
  | _ => .error (.valueError (str "cannot unpack url and hash lines"))

/-- The composite used by `homebrew_formula_template` on the output of
`poet -s dbt`: scan for the resource block and unpack the two lines. -/
def extract2 (poet_output : Str) : Except PyError (Str × Str) :=
  unpack2 (extract_parts poet_output)

/-!
The pipeline.  Filesystem paths are lists of components (`Path`); `p / q`
in Python becomes list append.  Every external-process invocation is a
`Cmd` answered by an oracle `World`; every observable side effect is
recorded, in order, in the trace of the pipeline state `PState`.
Computations run in `M`, a state monad with Python-exception short-circuit:
a raised error aborts the rest of the computation but keeps the state
reached so far.
-/

/-- Filesystem paths as lists of components. -/
abbrev Path := List Str

/-- The external commands the script runs (arguments as built at each call
site; `bumpversion` receives the `Version` value itself). -/
inductive Cmd where
  | bumpversion (version : Version) (part : Str) (cwd : Path)
  | setup_py (cwd : Path)
  | twine (test : Bool) (packages : List Path)
  | pip_install (requirement : Str)
  | poet_s (poet : Path)
  | poet_r (poet : Path)
  | brew_uninstall (formula : Path)
  | brew_install (formula : Path)
  | brew_test
  | brew_audit
  | git_add (target : Path) (cwd : Path)
  | git_commit (message : Str) (cwd : Path)
deriving DecidableEq

/-- Filesystem operations the script performs directly. -/
inductive FsOp where
  | rmtree (p : Path)
  | makedirs (p : Path)
  | copyFile (src : Path) (dst : Path)
  | write_text (p : Path)
  | removeFile (p : Path)
deriving DecidableEq

/-- One observable step of a pipeline run. -/
inductive Event where
  | cmd (c : Cmd)
  | inputPrompt (msg : Str)
  | fsop (op : FsOp)
deriving DecidableEq

/-- The tracked state of a run: text files with contents, existing
directories, and the ordered trace of observable steps. -/
structure PState where
  files : List (Path × Str)
  dirs : List Path
  trace : List Event
deriving DecidableEq

/-- Look a file up by path. -/
def lookupFile : List (Path × Str) → Path → Option Str
  | [], _ => none
  | (q, t) :: rest, p => if q = p then some t else lookupFile rest p

/-- Model of `Path.exists()` on the tracked state. -/
def PState.pathExists (s : PState) (p : Path) : Bool :=
  (lookupFile s.files p).isSome || s.dirs.contains p

/-- The environment: results of external commands, directory-glob results
for `_all_packages_in`, and the `input()` reply of the operator. -/
structure World where
  run : Cmd → Except Str Str
  packages_in : Path → List Path
  input_line : Str

/-- The effect monad: state in, state and Python-style result out.  An
error keeps the state reached so far and skips the rest. -/
def M (α : Type) : Type := PState → PState × Except PyError α

/-- Return for `M`. -/
def M.pure (a : α) : M α := fun s => (s, .ok a)

/-- Sequencing for `M`: a raised error short-circuits. -/
def M.bind (m : M α) (f : α → M β) : M β := fun s =>
  match m s with
  | (s', Except.ok a) => f a s'
  | (s', Except.error e) => (s', Except.error e)

instance : Monad M where
  pure := M.pure
  bind := M.bind

/-- Raise a Python exception. -/
def throwPy (e : PyError) : M α := fun s => (s, .error e)

/-- Lift a pure `Except` result (e.g. tuple unpacking) into `M`. -/
def liftE (r : Except PyError α) : M α := fun s => (s, r)

/-- Model of `assert False, msg`. -/
def assertFalse (msg : Str) : M Unit := throwPy (.assertionError msg)

/-- Model of `subprocess.check_output(cmd, stderr=subprocess.STDOUT, ...)`:
the invocation is recorded, a non-zero exit raises `CalledProcessError`
carrying the captured output. -/
def check_output (w : World) (c : Cmd) : M Str := fun s =>
  ({ s with trace := s.trace ++ [.cmd c] },
   match w.run c with
   | .ok o => .ok o
   | .error o => .error (.calledProcessError o))

/-- Model of `input(msg)`: record the suspension point, return the
reply of the operator. -/
def input_prompt (w : World) (msg : Str) : M Str := fun s =>
  ({ s with trace := s.trace ++ [.inputPrompt msg] }, .ok w.input_line)

/-- Read `path.exists()`. -/
def pathExistsM (p : Path) : M Bool := fun s => (s, .ok (s.pathExists p))

/-- Model of `shutil.rmtree(p)`: the tree rooted at `p` disappears. -/
def rmtree (p : Path) : M Unit := fun s =>
  ({ s with dirs := s.dirs.filter (fun q => !(p.isPrefixOf q)),
            files := s.files.filter (fun f => !(p.isPrefixOf f.1)),
            trace := s.trace ++ [.fsop (.rmtree p)] }, .ok ())

/-- Model of `os.makedirs(p)` at the call sites in the script (the target never
exists without `exist_ok=True`). -/
def makedirs (p : Path) : M Unit := fun s =>
  ({ s with dirs := if s.dirs.contains p then s.dirs else p :: s.dirs,
            trace := s.trace ++ [.fsop (.makedirs p)] }, .ok ())

/-- Model of `path.write_text(txt)`. -/
def write_text (p : Path) (txt : Str) : M Unit := fun s =>
  ({ s with files := (p, txt) :: s.files.filter (fun f => !(f.1 == p)),
            trace := s.trace ++ [.fsop (.write_text p)] }, .ok ())

/-- Model of `os.remove(p)`. -/
def removeFile (p : Path) : M Unit := fun s =>
  ({ s with files := s.files.filter (fun f => !(f.1 == p)),
            trace := s.trace ++ [.fsop (.removeFile p)] }, .ok ())

/-- Model of `shutil.copy(src, dst_dir)` (artifact files themselves are
tracked only through `World.packages_in`, so only the event is recorded). -/
def copyFile (src : Path) (dst : Path) : M Unit := fun s =>
  ({ s with trace := s.trace ++ [.fsop (.copyFile src dst)] }, .ok ())

/-- The fixed subpackage list `_SUBPACKAGES` (as relative paths). -/
def SUBPACKAGES : List Path :=
  [[str "core"], [str "plugins", str "postgres"], [str "plugins", str "redshift"],
   [str "plugins", str "bigquery"], [str "plugins", str "snowflake"]]

/-- Model of entering the `clean_dist(path, make)` context manager: delete
the `dist` directory of the package if it exists, optionally recreate it, and
hand back its path (the generator has no code after `yield`, so exiting the
context does nothing). -/
def clean_dist (path : Path) (make_dir : Bool) : M Path := do
  let dist_path := path ++ [str "dist"]
  let ex ← pathExistsM dist_path
  if ex then rmtree dist_path else M.pure ()
  if make_dir then makedirs dist_path else M.pure ()
  M.pure dist_path

/-- Model of `set_version`. -/
def set_version (w : World) (path : Path) (version : Version) (part : Str) : M Unit := do
  let _ ← check_output w (.bumpversion version part path)
  M.pure ()

/-- Model of `build_pypi_package`: run `python setup.py sdist bdist_wheel`
in the package directory. -/
def build_pypi_package (w : World) (path : Path) : M Unit := do
  let _ ← check_output w (.setup_py path)
  M.pure ()

/-- The `for path in _SUBPACKAGES` loop of `build_pypi_packages`, with the
`sub_pkgs` accumulator. -/
def build_sub_loop (w : World) (dbt_path : Path) : List Path → List Path → M (List Path)
  | [], acc => M.pure acc
  | sub :: rest, acc => do
    let subpath := dbt_path ++ sub
    let sub_dist ← clean_dist subpath false
    build_pypi_package w subpath
    build_sub_loop w dbt_path rest (acc ++ w.packages_in sub_dist)

/-- The `for package in sub_pkgs: shutil.copy(...)` loop. -/
def copy_all : List Path → Path → M Unit
  | [], _ => M.pure ()
  | p :: rest, dst => do
    copyFile p dst
    copy_all rest dst

/-- Model of `build_pypi_packages`. -/
def build_pypi_packages (w : World) (dbt_path : Path) : M Path := do
  let dist_path ← clean_dist dbt_path false
  let sub_pkgs ← build_sub_loop w dbt_path SUBPACKAGES []
  build_pypi_package w dbt_path
  copy_all sub_pkgs dist_path
  M.pure dist_path

/-- Model of `upload_pypi_packages`: one `twine upload` invocation over
every artifact in the release directory, against staging when `test`. -/
def upload_pypi_packages (w : World) (dist_path : Path) (test : Bool) : M Unit := do
  let _ ← check_output w (.twine test (w.packages_in dist_path))
  M.pure ()

/-- Model of `make_venv` together with `PoetVirtualenv.create`/`post_setup`:
prepare the build directory, delete a stale venv, create the venv and
pip-install the helper tool with the exact released version. -/
def make_venv (w : World) (dbt_path : Path) (dbt_version : Version) : M Path := do
  let build_path := dbt_path ++ [str "build"]
  let venv_path := build_path ++ [str "tmp-venv"]
  makedirs build_path
  let ex ← pathExistsM venv_path
  if ex then rmtree venv_path else M.pure ()
  makedirs venv_path
  let _ ← check_output w (.pip_install (str "dbt==" ++ dbt_version.raw))
  M.pure venv_path

/-- Model of `homebrew_formula_template`. -/
def homebrew_formula_template (w : World) (dbt_path : Path) (version : Version) :
    M DbtHomebrewTemplate := do
  let env_path ← make_venv w dbt_path version
  let poet := env_path ++ [str "bin", str "poet"]
  let output ← check_output w (.poet_s poet)
  let pair ← liftE (extract2 output)
  let dependencies ← check_output w (.poet_r poet)
  M.pure { url_data := pair.1, hash_data := pair.2,
           dependencies := dependencies, version := version }

/-- Model of `create_homebrew_formula`: render the versioned contents,
refuse to overwrite an existing formula file, otherwise write and return
the path. -/
def create_homebrew_formula (template : DbtHomebrewTemplate) (version : Version)
    (homebrew_path : Path) : M Path := do
  let formula_contents := template.contents true
  let homebrew_formula_path :=
    homebrew_path ++ [str "Formula", version.homebrew_filename]
  let ex ← pathExistsM homebrew_formula_path
  if ex then throwPy (.valueError (str "Homebrew formula path already exists!"))
  else M.pure ()
  write_text homebrew_formula_path formula_contents
  M.pure homebrew_formula_path

/-- Model of `homebrew_run_tests`. -/
def homebrew_run_tests (w : World) (formula_path : Path) : M Unit := do
  let _ ← check_output w (.brew_uninstall formula_path)
  let _ ← check_output w (.brew_install formula_path)
  let _ ← check_output w .brew_test
  let _ ← check_output w .brew_audit
  M.pure ()

/-- Model of `homebrew_commit_formula`. -/
def homebrew_commit_formula (w : World) (formula_path : Path) (version : Version)
    (homebrew_path : Path) : M Unit := do
  let _ ← check_output w (.git_add formula_path homebrew_path)
  let _ ← check_output w (.git_commit (str "add dbt@" ++ version.raw) homebrew_path)
  M.pure ()

/-- Model of `set_default_homebrew_package` (dead code behind the failing
assertion; the final `check_output` there also passes its arguments
unpacked instead of as a list, modelled as the intended commit command). -/
def set_default_homebrew_package (w : World) (template : DbtHomebrewTemplate)
    (version : Version) (homebrew_path : Path) : M Unit := do
  let default_path := homebrew_path ++ [str "Formula", str "dbt.rb"]
  removeFile default_path
  write_text default_path (template.contents false)
  let _ ← check_output w (.git_add default_path homebrew_path)
  let _ ← check_output w (.git_commit (str "upgrade dbt to " ++ version.raw) homebrew_path)
  M.pure ()

/-- Model of `build_homebrew_package`. -/
def build_homebrew_package (w : World) (dbt_path : Path) (version : Version)
    (homebrew_path : Path) (set_default : Bool) : M Path := do
  let template ← homebrew_formula_template w dbt_path version
  let formula_path ← create_homebrew_formula template version homebrew_path
  homebrew_run_tests w formula_path
  homebrew_commit_formula w formula_path version homebrew_path
  if set_default then do
    assertFalse (str "should not be set!!!")
    set_default_homebrew_package w template version homebrew_path
  else M.pure ()
  M.pure formula_path

/-- The parsed command-line arguments. -/
structure Arguments where
  version : Version
  part : Str
  path : Path
  homebrew_path : Path
  homebrew_set_default : Bool

/-- Model of `upgrade_to`, the whole pipeline. -/
def upgrade_to (w : World) (args : Arguments) : M Unit := do
  set_version w args.path args.version args.part
  let dist_path ← build_pypi_packages w args.path
  upload_pypi_packages w dist_path true
  let _ ← input_prompt w
    (str "Ensure https://test.pypi.org/project/dbt/" ++ args.version.raw ++
     str "/ exists and looks reasonable")
  upload_pypi_packages w dist_path false
  let _ ← build_homebrew_package w args.path args.version args.homebrew_path
    args.homebrew_set_default
  M.pure ()

/-- A string that begins with three nonempty dot-separated runs of decimal
digits (the mandatory part of `VERSION_PATTERN`). -/
def startsWithMNP (s : Str) : Prop :=
  ∃ a b c r, s = a ++ '.' :: (b ++ '.' :: (c ++ r)) ∧ a ≠ [] ∧ b ≠ [] ∧ c ≠ [] ∧
    (∀ x ∈ a, isDig x = true) ∧ (∀ x ∈ b, isDig x = true) ∧ (∀ x ∈ c, isDig x = true)

/-- A computation only appends trace events satisfying `P`. -/
def TraceExt (P : Event → Prop) {α : Type} (m : M α) : Prop :=
  ∀ s, ∃ ext, (m s).1.trace = s.trace ++ ext ∧ ∀ e ∈ ext, P e

/-- An environment in which every external command succeeds and `poet -s`
emits a well-formed two-line resource block. -/
def allOkWorld : World where
  run := fun c =>
    match c with
    | .poet_s _ => .ok (str "resource \"dbt\" do\n  url \"u\"\n  sha256 \"h\"\nend\n")
    | _ => .ok (str "")
  packages_in := fun _ => []
  input_line := str ""

/-- An environment in which building the `plugins/postgres` subpackage of
`dbt` fails and everything else succeeds. -/
def postgresFailWorld : World where
  run := fun c =>
    match c with
    | .setup_py p =>
      if p = [str "dbt", str "plugins", str "postgres"] then .error (str "build boom")
      else .ok (str "")
    | _ => .ok (str "")
  packages_in := fun _ => []
  input_line := str ""

/-- An environment in which building the `core` subpackage of `dbt` fails. -/
def coreFailWorld : World where
  run := fun c =>
    match c with
    | .setup_py p =>
      if p = [str "dbt", str "core"] then .error (str "core boom")
      else .ok (str "")
    | _ => .ok (str "")
  packages_in := fun _ => []
  input_line := str ""

/-! Basic facts about decimal rendering and maximal character runs. -/

theorem digitCh_isDig {d : Nat} (h : d < 10) : isDig (digitCh d) = true := by
  interval_cases d <;> decide

theorem charToDigit_digitCh {d : Nat} (h : d < 10) : charToDigit (digitCh d) = d := by
  interval_cases d <;> decide

theorem natToCharsAux_all_dig :
    ∀ fuel n c, c ∈ natToCharsAux fuel n → isDig c = true := by
  intro fuel
  induction fuel with
  | zero => intro n c hc; simp [natToCharsAux] at hc
  | succ fuel ih =>
    intro n c hc
    by_cases h : n < 10
    · simp [natToCharsAux, h] at hc
      subst hc; exact digitCh_isDig h
    · simp [natToCharsAux, h, List.mem_append] at hc
      rcases hc with hc | hc
      · exact ih _ _ hc
      · subst hc; exact digitCh_isDig (Nat.mod_lt _ (by omega))

theorem natToChars_all_dig {n : Nat} {c : Char} (hc : c ∈ natToChars n) :
    isDig c = true :=
  natToCharsAux_all_dig _ _ _ hc

theorem natToCharsAux_ne_nil : ∀ fuel n, 0 < fuel → natToCharsAux fuel n ≠ [] := by
  intro fuel n h
  cases fuel with
  | zero => omega
  | succ fuel =>
    by_cases h10 : n < 10 <;> simp [natToCharsAux, h10]

theorem natToChars_ne_nil (n : Nat) : natToChars n ≠ [] :=
  natToCharsAux_ne_nil _ _ (by omega)

theorem digitsToNat_append_single (L : Str) (c : Char) :
    digitsToNat (L ++ [c]) = digitsToNat L * 10 + charToDigit c := by
  simp [digitsToNat, List.foldl_append]

theorem digitsToNat_natToCharsAux :
    ∀ fuel n, n < fuel → digitsToNat (natToCharsAux fuel n) = n := by
  intro fuel
  induction fuel with
  | zero => intro n h; omega
  | succ fuel ih =>
    intro n h
    by_cases h10 : n < 10
    · simp [natToCharsAux, h10, digitsToNat, charToDigit_digitCh h10]
    · have hdiv : n / 10 < fuel := by
        have h1 : n / 10 < n := Nat.div_lt_self (by omega) (by omega)
        omega
      simp only [natToCharsAux, h10, if_false, digitsToNat_append_single]
      rw [ih _ hdiv, charToDigit_digitCh (Nat.mod_lt _ (by omega))]
      omega

theorem digitsToNat_natToChars (n : Nat) : digitsToNat (natToChars n) = n :=
  digitsToNat_natToCharsAux _ _ (by omega)

theorem takeWhile_append_all {p : Char → Bool} {L r : Str}
    (h : ∀ x ∈ L, p x = true) : (L ++ r).takeWhile p = L ++ r.takeWhile p := by
  induction L with
  | nil => simp
  | cons a l ih =>
    simp only [List.cons_append, List.takeWhile_cons]
    rw [h a (by simp), if_pos rfl]
    rw [ih (fun x hx => h x (by simp [hx]))]

theorem dropWhile_append_all {p : Char → Bool} {L r : Str}
    (h : ∀ x ∈ L, p x = true) : (L ++ r).dropWhile p = r.dropWhile p := by
  induction L with
  | nil => simp
  | cons a l ih =>
    simp only [List.cons_append, List.dropWhile_cons]
    rw [h a (by simp), if_pos rfl]
    exact ih (fun x hx => h x (by simp [hx]))

theorem takeWhile_all {p : Char → Bool} {L : Str}
    (h : ∀ x ∈ L, p x = true) : L.takeWhile p = L := by
  have := @takeWhile_append_all p L [] h
  simpa using this

theorem takeWhile_nil_of_head {p : Char → Bool} {L : Str}
    (h : ∀ c, L.head? = some c → p c = false) : L.takeWhile p = [] := by
  cases L with
  | nil => rfl
  | cons a l => simp [List.takeWhile_cons, h a rfl]

theorem dropWhile_id_of_head {p : Char → Bool} {L : Str}
    (h : ∀ c, L.head? = some c → p c = false) : L.dropWhile p = L := by
  cases L with
  | nil => rfl
  | cons a l => simp [List.dropWhile_cons, h a rfl]

theorem isLow_not_isDig {c : Char} (h : isLow c = true) : isDig c = false := by
  simp [isLow] at h
  simp [isDig]
  omega

theorem isDig_not_isLow {c : Char} (h : isDig c = true) : isLow c = false := by
  simp [isDig] at h
  simp [isLow]
  omega

theorem dot_not_isDig : isDig '.' = false := by decide


theorem head?_mem {l : Str} {c : Char} (h : l.head? = some c) : c ∈ l := by
  cases l with
  | nil => simp at h
  | cons a t => simp at h; simp [h]

theorem versionPatternMatch_core (Mj Mn Mp : Nat) (rest : Str)
    (hrest : ∀ c, rest.head? = some c → isDig c = false) :
    versionPatternMatch (coreStr Mj Mn Mp ++ rest) =
      (if rest.takeWhile isLow = [] ∨ (rest.dropWhile isLow).takeWhile isDig = [] then
        some ⟨natToChars Mj, natToChars Mn, natToChars Mp, none, none⟩
      else
        some ⟨natToChars Mj, natToChars Mn, natToChars Mp,
              some (rest.takeWhile isLow), some ((rest.dropWhile isLow).takeWhile isDig)⟩) := by
  have hM : ∀ x ∈ natToChars Mj, isDig x = true := fun x hx => natToChars_all_dig hx
  have hN : ∀ x ∈ natToChars Mn, isDig x = true := fun x hx => natToChars_all_dig hx
  have hP : ∀ x ∈ natToChars Mp, isDig x = true := fun x hx => natToChars_all_dig hx
  have hshape : coreStr Mj Mn Mp ++ rest =
      natToChars Mj ++ ('.' :: (natToChars Mn ++ ('.' :: (natToChars Mp ++ rest)))) := by
    simp [coreStr]
  rw [hshape]
  have t1 : (natToChars Mj ++ ('.' :: (natToChars Mn ++ ('.' :: (natToChars Mp ++ rest))))).takeWhile isDig
      = natToChars Mj := by
    rw [takeWhile_append_all hM]
    simp [List.takeWhile_cons, dot_not_isDig]
  have d1 : (natToChars Mj ++ ('.' :: (natToChars Mn ++ ('.' :: (natToChars Mp ++ rest))))).dropWhile isDig
      = '.' :: (natToChars Mn ++ ('.' :: (natToChars Mp ++ rest))) := by
    rw [dropWhile_append_all hM]
    simp [List.dropWhile_cons, dot_not_isDig]
  have t2 : (natToChars Mn ++ ('.' :: (natToChars Mp ++ rest))).takeWhile isDig
      = natToChars Mn := by
    rw [takeWhile_append_all hN]
    simp [List.takeWhile_cons, dot_not_isDig]
  have d2 : (natToChars Mn ++ ('.' :: (natToChars Mp ++ rest))).dropWhile isDig
      = '.' :: (natToChars Mp ++ rest) := by
    rw [dropWhile_append_all hN]
    simp [List.dropWhile_cons, dot_not_isDig]
  have t3 : (natToChars Mp ++ rest).takeWhile isDig = natToChars Mp := by
    rw [takeWhile_append_all hP, takeWhile_nil_of_head hrest, List.append_nil]
  have d3 : (natToChars Mp ++ rest).dropWhile isDig = rest := by
    rw [dropWhile_append_all hP, dropWhile_id_of_head hrest]
  unfold versionPatternMatch
  simp only [t1, d1, t2, d2, t3, d3]
  simp [natToChars_ne_nil]



theorem natToChars_head_not_low :
    ∀ c, ∀ n : Nat, (natToChars n).head? = some c → isLow c = false :=
  fun c n hc => isDig_not_isLow (natToChars_all_dig (head?_mem hc))

theorem init_core (Mj Mn Mp : Nat) :
    Version.init (coreStr Mj Mn Mp) =
      some ⟨coreStr Mj Mn Mp, Mj, Mn, Mp, none, none⟩ := by
  have h := versionPatternMatch_core Mj Mn Mp [] (by intro c hc; simp at hc)
  rw [List.append_nil] at h
  simp only [List.takeWhile_nil, List.dropWhile_nil, true_or, if_true] at h
  unfold Version.init
  rw [h]
  simp [digitsToNat_natToChars]

theorem init_prerelease (Mj Mn Mp num : Nat) (tag : Str) (htag : tag ≠ [])
    (hlow : ∀ c ∈ tag, isLow c = true) :
    Version.init (coreStr Mj Mn Mp ++ tag ++ natToChars num) =
      some ⟨coreStr Mj Mn Mp ++ tag ++ natToChars num, Mj, Mn, Mp, some tag, some num⟩ := by
  have hrest : ∀ c, (tag ++ natToChars num).head? = some c → isDig c = false := by
    intro c hc
    cases tag with
    | nil => exact absurd rfl htag
    | cons a t =>
      simp only [List.cons_append, List.head?_cons, Option.some.injEq] at hc
      subst hc
      exact isLow_not_isDig (hlow a (by simp))
  have h := versionPatternMatch_core Mj Mn Mp (tag ++ natToChars num) hrest
  have htw : (tag ++ natToChars num).takeWhile isLow = tag := by
    rw [takeWhile_append_all hlow,
        takeWhile_nil_of_head (fun c hc => natToChars_head_not_low c num hc), List.append_nil]
  have hdw : (tag ++ natToChars num).dropWhile isLow = natToChars num := by
    rw [dropWhile_append_all hlow,
        dropWhile_id_of_head (fun c hc => natToChars_head_not_low c num hc)]
  have hds : (natToChars num).takeWhile isDig = natToChars num :=
    takeWhile_all (fun x hx => natToChars_all_dig hx)
  rw [htw, hdw, hds] at h
  rw [if_neg (by simp [htag, natToChars_ne_nil])] at h
  unfold Version.init
  rw [List.append_assoc, h]
  simp [digitsToNat_natToChars]

/-- C5: for every valid version string of the form `M.N.P` or
`M.N.P<tag><num>` (components rendered canonically, tag a nonempty run of
lowercase letters), construction succeeds and the filename projection is
`dbt@M.N.P.rb` (resp. `dbt@M.N.P-<tag><num>.rb`) while the class-name
projection is `DbtAT` followed by `M`, `N`, `P` concatenated (plus the
title-cased tag and the number when a prerelease is present). -/
theorem c5_valid_version_projections (Mj Mn Mp num : Nat) (tag : Str)
    (htag : tag ≠ []) (hlow : ∀ c ∈ tag, isLow c = true) :
    (∃ v, Version.init (coreStr Mj Mn Mp) = some v ∧
       v.homebrew_class_name =
         str "DbtAT" ++ natToChars Mj ++ natToChars Mn ++ natToChars Mp ∧
       v.homebrew_filename = str "dbt@" ++ coreStr Mj Mn Mp ++ str ".rb") ∧
    (∃ v, Version.init (coreStr Mj Mn Mp ++ tag ++ natToChars num) = some v ∧
       v.homebrew_class_name =
         str "DbtAT" ++ natToChars Mj ++ natToChars Mn ++ natToChars Mp ++
           pyTitle tag ++ natToChars num ∧
       v.homebrew_filename =
         str "dbt@" ++ coreStr Mj Mn Mp ++ str "-" ++ tag ++ natToChars num ++ str ".rb") := by
  constructor
  · refine ⟨_, init_core Mj Mn Mp, ?_, ?_⟩
    · simp [Version.homebrew_class_name]
    · simp [Version.homebrew_filename, coreStr, str, List.append_assoc]
  · refine ⟨_, init_prerelease Mj Mn Mp num tag htag hlow, ?_, ?_⟩
    · simp [Version.homebrew_class_name, List.append_assoc]
    · simp [Version.homebrew_filename, coreStr, str, List.append_assoc]



theorem init_none_iff (s : Str) :
    Version.init s = none ↔ versionPatternMatch s = none := by
  unfold Version.init
  cases h : versionPatternMatch s with
  | none => simp
  | some g => cases hg : g.num <;> simp [hg]

theorem versionPatternMatch_some_of_core {s : Str} (h : startsWithMNP s) :
    ∃ g, versionPatternMatch s = some g := by
  obtain ⟨a, b, c, r, rfl, ha, hb, hc, da, db, dc⟩ := h
  have t1 : (a ++ '.' :: (b ++ '.' :: (c ++ r))).takeWhile isDig = a := by
    rw [takeWhile_append_all da]
    simp [List.takeWhile_cons, dot_not_isDig]
  have d1 : (a ++ '.' :: (b ++ '.' :: (c ++ r))).dropWhile isDig
      = '.' :: (b ++ '.' :: (c ++ r)) := by
    rw [dropWhile_append_all da]
    simp [List.dropWhile_cons, dot_not_isDig]
  have t2 : (b ++ '.' :: (c ++ r)).takeWhile isDig = b := by
    rw [takeWhile_append_all db]
    simp [List.takeWhile_cons, dot_not_isDig]
  have d2 : (b ++ '.' :: (c ++ r)).dropWhile isDig = '.' :: (c ++ r) := by
    rw [dropWhile_append_all db]
    simp [List.dropWhile_cons, dot_not_isDig]
  have t3 : (c ++ r).takeWhile isDig = c ++ r.takeWhile isDig :=
    takeWhile_append_all dc
  have h3 : c ++ r.takeWhile isDig ≠ [] := by simp [hc]
  unfold versionPatternMatch
  simp only [t1, d1, t2, d2, t3]
  simp only [ha, hb, h3, if_neg, if_false]
  split <;> exact ⟨_, rfl⟩

theorem versionPatternMatch_core_of_some {s : Str} {g : VGroups}
    (h : versionPatternMatch s = some g) : startsWithMNP s := by
  unfold versionPatternMatch at h
  simp only [] at h
  split at h
  · exact absurd h (by simp)
  · split at h
    next r2 heq =>
      split at h
      · exact absurd h (by simp)
      · split at h
        next r4 heq2 =>
          split at h
          · exact absurd h (by simp)
          · refine ⟨s.takeWhile isDig, r2.takeWhile isDig, r4.takeWhile isDig,
              r4.dropWhile isDig, ?_, by assumption, by assumption, by assumption,
              fun x hx => List.mem_takeWhile_imp hx,
              fun x hx => List.mem_takeWhile_imp hx,
              fun x hx => List.mem_takeWhile_imp hx⟩
            conv_lhs => rw [← List.takeWhile_append_dropWhile isDig s]
            rw [heq]
            conv_lhs => rw [← List.takeWhile_append_dropWhile isDig r2]
            rw [heq2]
            conv_lhs => rw [← List.takeWhile_append_dropWhile isDig r4]
        next heq2 => exact absurd h (by simp)
    next heq => exact absurd h (by simp)



/-- C4 (amended): construction fails exactly when the string does not begin
with three nonempty dot-separated digit runs; a prerelease tag without a
trailing number is not rejected, because the pattern is anchored only at
the start of the string, so the optional group and any trailing text are
silently ignored.  Inputs without the mandatory prefix are rejected at
construction. -/
theorem c4_parse_rejection (s : Str) :
    Version.init s = none ↔ ¬ startsWithMNP s := by
  rw [init_none_iff]
  constructor
  · intro h hc
    obtain ⟨g, hg⟩ := versionPatternMatch_some_of_core hc
    rw [h] at hg
    exact Option.noConfusion hg
  · intro h
    cases hg : versionPatternMatch s with
    | none => rfl
    | some g => exact absurd (versionPatternMatch_core_of_some hg) h

/-- C4 counterexample: the claim says a prerelease tag without a trailing
number is rejected, but `0.15.2b` parses successfully (the tag is dropped). -/
theorem c4_counterexample :
    Version.init (str "0.15.2b") = some ⟨str "0.15.2b", 0, 15, 2, none, none⟩ := by decide

/-- C8: for every accepted input, the prerelease tag and the prerelease
number are either both present or both absent. -/
theorem c8_prerelease_all_or_nothing (s : Str) (v : Version)
    (h : Version.init s = some v) : v.prerelease = none ↔ v.num = none := by
  unfold Version.init at h
  cases hg : versionPatternMatch s with
  | none => rw [hg] at h; exact Option.noConfusion h
  | some g =>
    rw [hg] at h
    have hpair : (g.prerelease = none ∧ g.num = none) ∨
        ∃ t d, g.prerelease = some t ∧ g.num = some d := by
      unfold versionPatternMatch at hg
      simp only [] at hg
      split at hg
      · exact absurd hg (by simp)
      · split at hg
        · split at hg
          · exact absurd hg (by simp)
          · split at hg
            · split at hg
              · exact absurd hg (by simp)
              · split at hg
                · simp only [Option.some.injEq] at hg
                  subst hg
                  exact Or.inl ⟨rfl, rfl⟩
                · simp only [Option.some.injEq] at hg
                  subst hg
                  exact Or.inr ⟨_, _, rfl, rfl⟩
            · exact absurd hg (by simp)
        · exact absurd hg (by simp)
    rcases hpair with ⟨hp, hn⟩ | ⟨t, d, hp, hn⟩
    · simp only [hn, Option.some.injEq] at h
      subst h
      simp [hp]
    · simp only [hn, Option.some.injEq] at h
      subst h
      simp [hp]

/-- C8 witness at the concrete input `0.16.0b1`. -/
theorem c8_witness :
    (Version.init (str "0.16.0b1") =
      some ⟨str "0.16.0b1", 0, 16, 0, some (str "b"), some 1⟩) ∧
    ((some (str "b") : Option Str) = none ↔ (some 1 : Option Nat) = none) := by
  have hinit : Version.init (str "0.16.0b1") =
      some ⟨str "0.16.0b1", 0, 16, 0, some (str "b"), some 1⟩ := by decide
  exact ⟨hinit, c8_prerelease_all_or_nothing _ _ hinit⟩



theorem contents_version_verbatim (t : DbtHomebrewTemplate) (versioned : Bool) :
    ∃ pre post, t.contents versioned =
      pre ++ (str "version \"" ++ t.version.raw ++ str "\"") ++ post := by
  refine ⟨FORMULA_PRE_NAME ++ (if versioned then t.version.homebrew_class_name else str "Dbt") ++
      FORMULA_PRE_URL ++ t.url_data ++ FORMULA_PRE_HASH ++ t.hash_data ++ str "\n  ",
    List.drop 1 FORMULA_PRE_DEPS ++ t.dependencies ++ FORMULA_PRE_TRAILER ++
      DBT_HOMEBREW_TRAILER ++ FORMULA_END, ?_⟩
  have h1 : FORMULA_PRE_VERSION = str "\n  " ++ str "version \"" := by decide
  have h2 : FORMULA_PRE_DEPS = str "\"" ++ List.drop 1 FORMULA_PRE_DEPS := by decide
  conv_lhs => rw [DbtHomebrewTemplate.contents, h1, h2]
  simp [List.append_assoc]

/-- C9: any string whose prefix matches `M.N.P` (here: the canonical core
followed by arbitrary text not starting with a digit) is accepted by
`Version` construction; the trailing text is ignored by the numeric fields,
while the raw string — trailing text included — is what the formula
renderer interpolates verbatim as the literal version string of the formula. -/
theorem c9_trailing_text_accepted (Mj Mn Mp : Nat) (junk : Str)
    (hjunk : ∀ c, junk.head? = some c → isDig c = false) :
    ∃ v, Version.init (coreStr Mj Mn Mp ++ junk) = some v ∧
      v.raw = coreStr Mj Mn Mp ++ junk ∧
      v.major = Mj ∧ v.minor = Mn ∧ v.patch = Mp ∧
      ∀ u h dep : Str, ∃ pre post,
        DbtHomebrewTemplate.contents ⟨u, h, dep, v⟩ true =
          pre ++ (str "version \"" ++ (coreStr Mj Mn Mp ++ junk) ++ str "\"") ++ post := by
  have h := versionPatternMatch_core Mj Mn Mp junk hjunk
  by_cases hcond : junk.takeWhile isLow = [] ∨ (junk.dropWhile isLow).takeWhile isDig = []
  · rw [if_pos hcond] at h
    refine ⟨⟨coreStr Mj Mn Mp ++ junk, Mj, Mn, Mp, none, none⟩, ?_, rfl, rfl, rfl, rfl, ?_⟩
    · unfold Version.init
      rw [h]
      simp [digitsToNat_natToChars]
    · intro u hh dep
      exact contents_version_verbatim ⟨u, hh, dep, _⟩ true
  · rw [if_neg hcond] at h
    refine ⟨⟨coreStr Mj Mn Mp ++ junk, Mj, Mn, Mp, some (junk.takeWhile isLow),
        some (digitsToNat ((junk.dropWhile isLow).takeWhile isDig))⟩, ?_, rfl, rfl, rfl, rfl, ?_⟩
    · unfold Version.init
      rw [h]
      simp [digitsToNat_natToChars]
    · intro u hh dep
      exact contents_version_verbatim ⟨u, hh, dep, _⟩ true

/-- C9 witness: `0.15.2rc1-latest` is accepted, keeps `0.15.2` in the
numeric fields, and the rendered formula carries the full raw string. -/
theorem c9_witness :
    ∃ v, Version.init (str "0.15.2rc1-latest") = some v ∧
      v.raw = str "0.15.2rc1-latest" ∧
      v.major = 0 ∧ v.minor = 15 ∧ v.patch = 2 ∧
      ∀ u h dep : Str, ∃ pre post,
        DbtHomebrewTemplate.contents ⟨u, h, dep, v⟩ true =
          pre ++ (str "version \"" ++ str "0.15.2rc1-latest" ++ str "\"") ++ post := by
  have hcore : str "0.15.2rc1-latest" = coreStr 0 15 2 ++ str "rc1-latest" := by decide
  rw [hcore]
  exact c9_trailing_text_accepted 0 15 2 (str "rc1-latest") (by decide)



theorem extractLoop_no_marker :
    ∀ ls : List Str, (∀ l ∈ ls, pyStrip l ≠ RESOURCE_MARKER) →
    extractLoop ls false = [] := by
  intro ls h
  induction ls with
  | nil => rfl
  | cons a t ih =>
    simp only [extractLoop]
    rw [if_neg (by simp : ¬(false = true)), if_neg (h a (by simp))]
    exact ih (fun l hl => h l (by simp [hl]))

theorem extractLoop_collecting :
    ∀ ls : List Str, extractLoop ls true =
      (ls.map pyStrip).takeWhile (fun l => !(l == str "end")) := by
  intro ls
  induction ls with
  | nil => rfl
  | cons a t ih =>
    simp only [extractLoop, List.map_cons, List.takeWhile_cons]
    by_cases h : pyStrip a = str "end"
    · simp [h]
    · simp [h, ih, beq_eq_false_iff_ne.mpr h]

theorem extractLoop_after_marker :
    ∀ (pre : List Str) (m : Str) (rest : List Str),
    (∀ l ∈ pre, pyStrip l ≠ RESOURCE_MARKER) → pyStrip m = RESOURCE_MARKER →
    extractLoop (pre ++ m :: rest) false = extractLoop rest true := by
  intro pre m rest hpre hm
  induction pre with
  | nil =>
    simp only [List.nil_append, extractLoop]
    rw [if_neg (by simp : ¬(false = true)), if_pos hm]
  | cons a t ih =>
    have ha : pyStrip a ≠ RESOURCE_MARKER := hpre a (by simp)
    simp only [List.cons_append, extractLoop]
    rw [if_neg (by simp : ¬(false = true)), if_neg ha]
    exact ih (fun l hl => hpre l (by simp [hl]))

theorem unpack2_short {l : List Str} (h : l.length ≤ 1) :
    unpack2 l = .error (.valueError (str "cannot unpack url and hash lines")) := by
  match l with
  | [] => rfl
  | [a] => rfl
  | a :: b :: t => simp at h

/-- C6: extraction fails with the distinct unpacking `ValueError` (no
partially populated `FormulaData` is returned) whenever the poet output has
no line stripping to `resource "dbt" do`, or the resource block holds at
most one line before its `end`; when the block holds exactly two lines they
are returned as the stripped url line and the stripped hash line, in that
order. -/
theorem c6_extract_parts (out : Str) :
    ((∀ l ∈ splitLines out, pyStrip l ≠ RESOURCE_MARKER) →
      extract2 out = .error (.valueError (str "cannot unpack url and hash lines"))) ∧
    (∀ pre m rest, splitLines out = pre ++ m :: rest →
      (∀ l ∈ pre, pyStrip l ≠ RESOURCE_MARKER) → pyStrip m = RESOURCE_MARKER →
      (((rest.map pyStrip).takeWhile (fun l => !(l == str "end"))).length ≤ 1 →
        extract2 out = .error (.valueError (str "cannot unpack url and hash lines"))) ∧
      (∀ u h, (rest.map pyStrip).takeWhile (fun l => !(l == str "end")) = [u, h] →
        extract2 out = .ok (u, h))) := by
  constructor
  · intro h
    unfold extract2 extract_parts
    rw [extractLoop_no_marker _ h]
    rfl
  · intro pre m rest hsplit hpre hm
    have hloop : extract_parts out =
        (rest.map pyStrip).takeWhile (fun l => !(l == str "end")) := by
      unfold extract_parts
      rw [hsplit, extractLoop_after_marker pre m rest hpre hm, extractLoop_collecting]
    constructor
    · intro hlen
      unfold extract2
      rw [hloop]
      exact unpack2_short hlen
    · intro u h huh
      unfold extract2
      rw [hloop, huh]
      rfl

/-- C6 witness: a concrete poet output with a two-line resource block
extracts the stripped url and hash lines; dropping the hash line makes the
same extraction fail. -/
theorem c6_witness :
    extract2 (str "x\nresource \"dbt\" do\n  url \"U\"\n  sha256 \"H\"\nend\nz") =
      .ok (str "url \"U\"", str "sha256 \"H\"") ∧
    extract2 (str "x\nresource \"dbt\" do\n  url \"U\"\nend\nz") =
      .error (.valueError (str "cannot unpack url and hash lines")) := by
  constructor
  · exact ((c6_extract_parts _).2 [str "x"] (str "resource \"dbt\" do")
      [str "  url \"U\"", str "  sha256 \"H\"", str "end", str "z"]
      (by decide) (by decide) (by decide)).2 (str "url \"U\"") (str "sha256 \"H\"") (by decide)
  · exact ((c6_extract_parts _).2 [str "x"] (str "resource \"dbt\" do")
      [str "  url \"U\"", str "end", str "z"]
      (by decide) (by decide) (by decide)).1 (by decide)



theorem bind_eval {α β : Type} {m : M α} {f : α → M β} {s s₁ : PState} {a : α}
    (hm : m s = (s₁, .ok a)) : (m >>= f) s = f a s₁ := by
  show M.bind m f s = f a s₁
  unfold M.bind
  rw [hm]

theorem bind_eval_err {α β : Type} {m : M α} {f : α → M β} {s s₁ : PState} {e : PyError}
    (hm : m s = (s₁, .error e)) : (m >>= f) s = (s₁, .error e) := by
  show M.bind m f s = (s₁, .error e)
  unfold M.bind
  rw [hm]

theorem bind_ok {α β : Type} {m : M α} {f : α → M β} {s s₂ : PState} {b : β}
    (h : (m >>= f) s = (s₂, .ok b)) :
    ∃ s₁ a, m s = (s₁, .ok a) ∧ f a s₁ = (s₂, .ok b) := by
  have h' : M.bind m f s = (s₂, .ok b) := h
  unfold M.bind at h'
  rcases hm : m s with ⟨s₁, r⟩
  rw [hm] at h'
  cases r with
  | ok a => exact ⟨s₁, a, rfl, h'⟩
  | error e => exact absurd (congrArg Prod.snd h') (by simp)

theorem traceExt_pure {P : Event → Prop} {α : Type} (a : α) : TraceExt P (M.pure a) :=
  fun s => ⟨[], by simp [M.pure], by simp⟩

theorem traceExt_bind {P : Event → Prop} {α β : Type} {m : M α} {f : α → M β}
    (hm : TraceExt P m) (hf : ∀ a, TraceExt P (f a)) : TraceExt P (m >>= f) := by
  intro s
  obtain ⟨e1, h1, hp1⟩ := hm s
  show ∃ ext, (M.bind m f s).1.trace = s.trace ++ ext ∧ ∀ e ∈ ext, P e
  unfold M.bind
  rcases hms : m s with ⟨s', r⟩
  rw [hms] at h1
  cases r with
  | ok a =>
    obtain ⟨e2, h2, hp2⟩ := hf a s'
    refine ⟨e1 ++ e2, ?_, ?_⟩
    · have h1' : s'.trace = s.trace ++ e1 := h1
      rw [h2, h1', List.append_assoc]
    · intro e he
      rcases List.mem_append.mp he with he | he
      · exact hp1 e he
      · exact hp2 e he
  | error e => exact ⟨e1, h1, hp1⟩

theorem traceExt_throw_bind {P : Event → Prop} {α : Type} (e : PyError) (f : Unit → M α) :
    TraceExt P (throwPy e >>= f) :=
  fun s => ⟨[], by simp [Bind.bind, M.bind, throwPy], by simp⟩

theorem traceExt_throwPy {P : Event → Prop} {α : Type} (e : PyError) :
    TraceExt P (throwPy e : M α) :=
  fun s => ⟨[], by simp [throwPy], by simp⟩

theorem traceExt_liftE {P : Event → Prop} {α : Type} (r : Except PyError α) :
    TraceExt P (liftE r) :=
  fun s => ⟨[], by simp [liftE], by simp⟩

theorem traceExt_pathExistsM {P : Event → Prop} (p : Path) :
    TraceExt P (pathExistsM p) :=
  fun s => ⟨[], by simp [pathExistsM], by simp⟩

theorem traceExt_check_output {P : Event → Prop} (w : World) (c : Cmd)
    (h : P (.cmd c)) : TraceExt P (check_output w c) :=
  fun s => ⟨[.cmd c], by simp [check_output], by simpa⟩

theorem traceExt_input_prompt {P : Event → Prop} (w : World) (msg : Str)
    (h : P (.inputPrompt msg)) : TraceExt P (input_prompt w msg) :=
  fun s => ⟨[.inputPrompt msg], by simp [input_prompt], by simpa⟩

theorem traceExt_rmtree {P : Event → Prop} (p : Path)
    (h : P (.fsop (.rmtree p))) : TraceExt P (rmtree p) :=
  fun s => ⟨[.fsop (.rmtree p)], by simp [rmtree], by simpa⟩

theorem traceExt_makedirs {P : Event → Prop} (p : Path)
    (h : P (.fsop (.makedirs p))) : TraceExt P (makedirs p) :=
  fun s => ⟨[.fsop (.makedirs p)], by simp [makedirs], by simpa⟩

theorem traceExt_write_text {P : Event → Prop} (p : Path) (txt : Str)
    (h : P (.fsop (.write_text p))) : TraceExt P (write_text p txt) :=
  fun s => ⟨[.fsop (.write_text p)], by simp [write_text], by simpa⟩

theorem traceExt_removeFile {P : Event → Prop} (p : Path)
    (h : P (.fsop (.removeFile p))) : TraceExt P (removeFile p) :=
  fun s => ⟨[.fsop (.removeFile p)], by simp [removeFile], by simpa⟩

theorem traceExt_copyFile {P : Event → Prop} (src dst : Path)
    (h : P (.fsop (.copyFile src dst))) : TraceExt P (copyFile src dst) :=
  fun s => ⟨[.fsop (.copyFile src dst)], by simp [copyFile], by simpa⟩

theorem traceExt_ite {P : Event → Prop} {α : Type} {c : Prop} [Decidable c]
    {m m' : M α} (hm : TraceExt P m) (hm' : TraceExt P m') :
    TraceExt P (if c then m else m') := by
  by_cases h : c
  · simpa [h] using hm
  · simpa [h] using hm'



@[simp] theorem bind_def {α β : Type} (m : M α) (f : α → M β) : m >>= f = M.bind m f := rfl

@[simp] theorem pure_def {α : Type} (a : α) : (pure a : M α) = M.pure a := rfl

theorem check_output_eval_ok {w : World} {c : Cmd} {o : Str} (s : PState)
    (h : w.run c = .ok o) :
    check_output w c s = ({ s with trace := s.trace ++ [.cmd c] }, .ok o) := by
  simp [check_output, h]

theorem check_output_eval_err {w : World} {c : Cmd} {o : Str} (s : PState)
    (h : w.run c = .error o) :
    check_output w c s =
      ({ s with trace := s.trace ++ [.cmd c] }, .error (.calledProcessError o)) := by
  simp [check_output, h]

theorem set_version_ok {w : World} {v : Version} {pt : Str} {p : Path} {o : Str}
    (s : PState) (h : w.run (.bumpversion v pt p) = .ok o) :
    set_version w p v pt s =
      ({ s with trace := s.trace ++ [.cmd (.bumpversion v pt p)] }, .ok ()) := by
  simp [set_version, M.bind, M.pure, check_output, h]

theorem build_pypi_package_ok {w : World} {p : Path} {o : Str} (s : PState)
    (h : w.run (.setup_py p) = .ok o) :
    build_pypi_package w p s =
      ({ s with trace := s.trace ++ [.cmd (.setup_py p)] }, .ok ()) := by
  simp [build_pypi_package, M.bind, M.pure, check_output, h]

theorem build_pypi_package_err {w : World} {p : Path} {o : Str} (s : PState)
    (h : w.run (.setup_py p) = .error o) :
    build_pypi_package w p s =
      ({ s with trace := s.trace ++ [.cmd (.setup_py p)] },
       .error (.calledProcessError o)) := by
  simp [build_pypi_package, M.bind, M.pure, check_output, h]

theorem upload_eval {w : World} (dist : Path) (t : Bool) (s : PState) :
    upload_pypi_packages w dist t s =
      ({ s with trace := s.trace ++ [.cmd (.twine t (w.packages_in dist))] },
       match w.run (.twine t (w.packages_in dist)) with
       | .ok _ => .ok ()
       | .error o => .error (.calledProcessError o)) := by
  cases h : w.run (.twine t (w.packages_in dist)) with
  | ok o => simp [upload_pypi_packages, M.bind, M.pure, check_output, h]
  | error o => simp [upload_pypi_packages, M.bind, M.pure, check_output, h]

theorem clean_dist_false_eval_pos {s : PState} {p : Path}
    (hex : s.pathExists (p ++ [str "dist"]) = true) :
    clean_dist p false s =
      ({ s with dirs := s.dirs.filter (fun q => !((p ++ [str "dist"]).isPrefixOf q)),
                files := s.files.filter (fun f => !((p ++ [str "dist"]).isPrefixOf f.1)),
                trace := s.trace ++ [.fsop (.rmtree (p ++ [str "dist"]))] },
       .ok (p ++ [str "dist"])) := by
  simp [clean_dist, M.bind, M.pure, pathExistsM, rmtree, hex]

theorem clean_dist_false_eval_neg {s : PState} {p : Path}
    (hex : s.pathExists (p ++ [str "dist"]) = false) :
    clean_dist p false s = (s, .ok (p ++ [str "dist"])) := by
  simp [clean_dist, M.bind, M.pure, pathExistsM, hex]

theorem traceExt_clean_dist_false {P : Event → Prop} (p : Path)
    (h : ∀ q, P (.fsop (.rmtree q))) : TraceExt P (clean_dist p false) := by
  intro s
  by_cases hex : s.pathExists (p ++ [str "dist"]) = true
  · rw [clean_dist_false_eval_pos hex]
    exact ⟨[.fsop (.rmtree (p ++ [str "dist"]))], rfl, by simpa using h _⟩
  · rw [clean_dist_false_eval_neg (by simpa using hex)]
    exact ⟨[], by simp, by simp⟩

theorem traceExt_build_pypi_package {P : Event → Prop} (w : World) (p : Path)
    (h : P (.cmd (.setup_py p))) : TraceExt P (build_pypi_package w p) := by
  unfold build_pypi_package
  exact traceExt_bind (traceExt_check_output w _ h) (fun _ => traceExt_pure _)

theorem traceExt_copy_all {P : Event → Prop}
    (h : ∀ q d, P (.fsop (.copyFile q d))) :
    ∀ l dst, TraceExt P (copy_all l dst) := by
  intro l
  induction l with
  | nil => intro dst; exact traceExt_pure _
  | cons a t ih =>
    intro dst
    unfold copy_all
    exact traceExt_bind (traceExt_copyFile a dst (h a dst)) (fun _ => ih dst)

theorem traceExt_build_sub_loop {P : Event → Prop} (w : World) (dbt : Path)
    (h1 : ∀ q, P (.fsop (.rmtree q))) (h2 : ∀ q, P (.cmd (.setup_py q))) :
    ∀ l acc, TraceExt P (build_sub_loop w dbt l acc) := by
  intro l
  induction l with
  | nil => intro acc; exact traceExt_pure _
  | cons sub t ih =>
    intro acc
    unfold build_sub_loop
    exact traceExt_bind (traceExt_clean_dist_false _ h1)
      (fun sub_dist => traceExt_bind (traceExt_build_pypi_package w _ (h2 _))
        (fun _ => ih _))

theorem traceExt_build_pypi_packages {P : Event → Prop} (w : World) (p : Path)
    (h1 : ∀ q, P (.fsop (.rmtree q))) (h2 : ∀ q, P (.cmd (.setup_py q)))
    (h3 : ∀ q d, P (.fsop (.copyFile q d))) :
    TraceExt P (build_pypi_packages w p) := by
  unfold build_pypi_packages
  exact traceExt_bind (traceExt_clean_dist_false _ h1)
    (fun dist => traceExt_bind (traceExt_build_sub_loop w p h1 h2 _ _)
      (fun pkgs => traceExt_bind (traceExt_build_pypi_package w _ (h2 _))
        (fun _ => traceExt_bind (traceExt_copy_all h3 _ _)
          (fun _ => traceExt_pure _))))



theorem traceExt_make_venv {P : Event → Prop} (w : World) (dbt : Path) (v : Version)
    (h1 : ∀ q, P (.fsop (.rmtree q))) (h2 : ∀ q, P (.fsop (.makedirs q)))
    (h3 : ∀ r, P (.cmd (.pip_install r))) : TraceExt P (make_venv w dbt v) := by
  unfold make_venv
  refine traceExt_bind (traceExt_makedirs _ (h2 _)) (fun _ => ?_)
  refine traceExt_bind (traceExt_pathExistsM _) (fun ex => ?_)
  have hK : ∀ y : Unit, TraceExt P
      ((makedirs (dbt ++ [str "build"] ++ [str "tmp-venv"])) >>= (fun _ =>
        (check_output w (Cmd.pip_install (str "dbt==" ++ v.raw))) >>= (fun _ =>
          M.pure (dbt ++ [str "build"] ++ [str "tmp-venv"])))) := fun y =>
    traceExt_bind (traceExt_makedirs _ (h2 _)) (fun _ =>
      traceExt_bind (traceExt_check_output w _ (h3 _)) (fun _ => traceExt_pure _))
  exact traceExt_ite
    (traceExt_bind (traceExt_rmtree _ (h1 _)) hK)
    (traceExt_bind (traceExt_pure _) hK)

theorem traceExt_homebrew_formula_template {P : Event → Prop} (w : World)
    (dbt : Path) (v : Version)
    (h1 : ∀ q, P (.fsop (.rmtree q))) (h2 : ∀ q, P (.fsop (.makedirs q)))
    (h3 : ∀ r, P (.cmd (.pip_install r)))
    (h4 : ∀ q, P (.cmd (.poet_s q))) (h5 : ∀ q, P (.cmd (.poet_r q))) :
    TraceExt P (homebrew_formula_template w dbt v) := by
  unfold homebrew_formula_template
  exact traceExt_bind (traceExt_make_venv w dbt v h1 h2 h3) (fun env =>
    traceExt_bind (traceExt_check_output w _ (h4 _)) (fun out =>
      traceExt_bind (traceExt_liftE _) (fun pr =>
        traceExt_bind (traceExt_check_output w _ (h5 _)) (fun dep => traceExt_pure _))))

theorem traceExt_create_homebrew_formula {P : Event → Prop}
    (t : DbtHomebrewTemplate) (v : Version) (hb : Path)
    (h : P (.fsop (.write_text (hb ++ [str "Formula", v.homebrew_filename])))) :
    TraceExt P (create_homebrew_formula t v hb) := by
  unfold create_homebrew_formula
  refine traceExt_bind (traceExt_pathExistsM _) (fun ex => ?_)
  have hK : ∀ y : Unit, TraceExt P
      ((write_text (hb ++ [str "Formula", v.homebrew_filename]) (t.contents true)) >>= (fun _ =>
        M.pure (hb ++ [str "Formula", v.homebrew_filename]))) := fun y =>
    traceExt_bind (traceExt_write_text _ _ h) (fun _ => traceExt_pure _)
  exact traceExt_ite
    (traceExt_bind (traceExt_throwPy _) hK)
    (traceExt_bind (traceExt_pure _) hK)

theorem traceExt_homebrew_run_tests {P : Event → Prop} (w : World) (fp : Path)
    (h1 : P (.cmd (.brew_uninstall fp))) (h2 : P (.cmd (.brew_install fp)))
    (h3 : P (.cmd .brew_test)) (h4 : P (.cmd .brew_audit)) :
    TraceExt P (homebrew_run_tests w fp) := by
  unfold homebrew_run_tests
  exact traceExt_bind (traceExt_check_output w _ h1) (fun _ =>
    traceExt_bind (traceExt_check_output w _ h2) (fun _ =>
      traceExt_bind (traceExt_check_output w _ h3) (fun _ =>
        traceExt_bind (traceExt_check_output w _ h4) (fun _ => traceExt_pure _))))

theorem traceExt_homebrew_commit_formula {P : Event → Prop} (w : World)
    (fp : Path) (v : Version) (hb : Path)
    (h1 : P (.cmd (.git_add fp hb)))
    (h2 : P (.cmd (.git_commit (str "add dbt@" ++ v.raw) hb))) :
    TraceExt P (homebrew_commit_formula w fp v hb) := by
  unfold homebrew_commit_formula
  exact traceExt_bind (traceExt_check_output w _ h1) (fun _ =>
    traceExt_bind (traceExt_check_output w _ h2) (fun _ => traceExt_pure _))

theorem traceExt_build_homebrew_package {P : Event → Prop} (w : World)
    (dbt : Path) (v : Version) (hb : Path) (sd : Bool)
    (h1 : ∀ q, P (.fsop (.rmtree q))) (h2 : ∀ q, P (.fsop (.makedirs q)))
    (h3 : ∀ r, P (.cmd (.pip_install r)))
    (h4 : ∀ q, P (.cmd (.poet_s q))) (h5 : ∀ q, P (.cmd (.poet_r q)))
    (h6 : P (.fsop (.write_text (hb ++ [str "Formula", v.homebrew_filename]))))
    (h7 : ∀ q, P (.cmd (.brew_uninstall q))) (h8 : ∀ q, P (.cmd (.brew_install q)))
    (h9 : P (.cmd .brew_test)) (h10 : P (.cmd .brew_audit))
    (h11 : ∀ q, P (.cmd (.git_add q hb)))
    (h12 : P (.cmd (.git_commit (str "add dbt@" ++ v.raw) hb))) :
    TraceExt P (build_homebrew_package w dbt v hb sd) := by
  unfold build_homebrew_package assertFalse
  refine traceExt_bind (traceExt_homebrew_formula_template w dbt v h1 h2 h3 h4 h5)
    (fun t => ?_)
  refine traceExt_bind (traceExt_create_homebrew_formula t v hb h6) (fun fp => ?_)
  refine traceExt_bind (traceExt_homebrew_run_tests w fp (h7 _) (h8 _) h9 h10)
    (fun _ => ?_)
  refine traceExt_bind (traceExt_homebrew_commit_formula w fp v hb (h11 _) h12)
    (fun _ => ?_)
  have hK : ∀ y : Unit, TraceExt P (M.pure fp) := fun y => traceExt_pure _
  exact traceExt_ite (traceExt_throw_bind _ _) (traceExt_bind (traceExt_pure _) hK)



theorem create_eval_present {t : DbtHomebrewTemplate} {v : Version} {hb : Path}
    {s : PState} (hex : s.pathExists (hb ++ [str "Formula", v.homebrew_filename]) = true) :
    create_homebrew_formula t v hb s =
      (s, .error (.valueError (str "Homebrew formula path already exists!"))) := by
  simp [create_homebrew_formula, M.bind, M.pure, pathExistsM, throwPy, hex]

theorem create_eval_absent {t : DbtHomebrewTemplate} {v : Version} {hb : Path}
    {s : PState} (hex : s.pathExists (hb ++ [str "Formula", v.homebrew_filename]) = false) :
    create_homebrew_formula t v hb s =
      ({ s with
          files := (hb ++ [str "Formula", v.homebrew_filename], t.contents true) ::
            s.files.filter (fun f => !(f.1 == hb ++ [str "Formula", v.homebrew_filename])),
          trace := s.trace ++ [.fsop (.write_text (hb ++ [str "Formula", v.homebrew_filename]))] },
       .ok (hb ++ [str "Formula", v.homebrew_filename])) := by
  simp [create_homebrew_formula, M.bind, M.pure, pathExistsM, write_text, throwPy, hex]

/-- C1: if the formula-write operation succeeds, a second call with the
same version and unchanged filesystem fails with the distinct
`AlreadyExists` error (`ValueError: Homebrew formula path already
exists!`), leaves the state — including the trace, so no write happens —
completely untouched, and the contents written by the first call are still
in place. -/
theorem c1_no_double_write (t : DbtHomebrewTemplate) (v : Version) (hb : Path)
    (s s' : PState) (p : Path)
    (h : create_homebrew_formula t v hb s = (s', .ok p)) :
    create_homebrew_formula t v hb s' =
      (s', .error (.valueError (str "Homebrew formula path already exists!"))) ∧
    lookupFile s'.files p = some (t.contents true) ∧
    p = hb ++ [str "Formula", v.homebrew_filename] := by
  by_cases hex : s.pathExists (hb ++ [str "Formula", v.homebrew_filename]) = true
  · rw [create_eval_present hex] at h
    exact absurd (congrArg Prod.snd h) (by simp)
  · have hex' : s.pathExists (hb ++ [str "Formula", v.homebrew_filename]) = false := by
      simpa using hex
    rw [create_eval_absent hex'] at h
    rw [Prod.mk.injEq] at h
    obtain ⟨hs', hres⟩ := h
    have hp : hb ++ [str "Formula", v.homebrew_filename] = p := by simpa using hres
    subst hp
    have hfiles : s'.files =
        (hb ++ [str "Formula", v.homebrew_filename], t.contents true) ::
          s.files.filter (fun f => !(f.1 == hb ++ [str "Formula", v.homebrew_filename])) := by
      rw [← hs']
    have hex2 : s'.pathExists (hb ++ [str "Formula", v.homebrew_filename]) = true := by
      simp [PState.pathExists, hfiles, lookupFile]
    refine ⟨?_, ?_, rfl⟩
    · rw [create_eval_present hex2]
    · rw [hfiles]
      simp [lookupFile]

theorem isPrefixOf_refl (l : Path) : l.isPrefixOf l = true := by
  induction l with
  | nil => rfl
  | cons a t ih => simp [List.isPrefixOf, ih]

theorem not_mem_filter_self (l : List Path) (pd : Path) :
    pd ∉ l.filter (fun q => !(pd.isPrefixOf q)) := by
  intro hmem
  have h := (List.mem_filter.mp hmem).2
  rw [isPrefixOf_refl] at h
  simp at h

theorem bind_fst_snd_err {α β : Type} {m : M α} {f : α → M β} {s : PState} {e : PyError}
    (h2 : (m s).2 = .error e) :
    ((m >>= f) s).2 = .error e ∧ ((m >>= f) s).1 = (m s).1 := by
  show (M.bind m f s).2 = _ ∧ (M.bind m f s).1 = _
  unfold M.bind
  rcases hm : m s with ⟨s', r⟩
  rw [hm] at h2
  cases r with
  | ok a => exact absurd h2 (by simp)
  | error e' =>
    simp only at h2
    rw [h2]
    exact ⟨rfl, rfl⟩

theorem build_sub_loop_fail_first {w : World} {dbt : Path} {bout : Str}
    (sub : Path) (l2 : List Path) (acc : List Path) (s : PState)
    (hbad : w.run (.setup_py (dbt ++ sub)) = .error bout) :
    (build_sub_loop w dbt (sub :: l2) acc s).2 = .error (.calledProcessError bout) ∧
    (∃ ext, (build_sub_loop w dbt (sub :: l2) acc s).1.trace = s.trace ++ ext) ∧
    ∀ x, x ∉ s.dirs → x ∉ (build_sub_loop w dbt (sub :: l2) acc s).1.dirs := by
  by_cases hex : s.pathExists ((dbt ++ sub) ++ [str "dist"]) = true
  · simp only [build_sub_loop]
    rw [bind_eval (clean_dist_false_eval_pos hex)]
    rw [bind_eval_err (build_pypi_package_err _ hbad)]
    refine ⟨rfl, ⟨[.fsop (.rmtree ((dbt ++ sub) ++ [str "dist"])),
      .cmd (.setup_py (dbt ++ sub))], by simp⟩, ?_⟩
    intro x hx hmem
    exact hx ((List.mem_filter.mp hmem).1)
  · have hex' : s.pathExists ((dbt ++ sub) ++ [str "dist"]) = false := by simpa using hex
    simp only [build_sub_loop]
    rw [bind_eval (clean_dist_false_eval_neg hex')]
    rw [bind_eval_err (build_pypi_package_err _ hbad)]
    exact ⟨rfl, ⟨[.cmd (.setup_py (dbt ++ sub))], by simp⟩, fun x hx hmem => hx hmem⟩

/-- C10: `build_pypi_packages` deletes the aggregate `dist` directory of
the main package (first recorded step) before any subpackage build is invoked, so
when the very first subpackage build fails the whole stage errors out with
the previous aggregate release directory already irreversibly gone. -/
theorem c10_dist_deleted_before_builds (w : World) (p : Path) (s : PState) (bout : Str)
    (hdist : s.pathExists (p ++ [str "dist"]) = true)
    (hbad : w.run (.setup_py (p ++ [str "core"])) = .error bout) :
    (build_pypi_packages w p s).2 = .error (.calledProcessError bout) ∧
    (∃ ext, (build_pypi_packages w p s).1.trace =
      s.trace ++ .fsop (.rmtree (p ++ [str "dist"])) :: ext) ∧
    (p ++ [str "dist"]) ∉ (build_pypi_packages w p s).1.dirs := by
  simp only [build_pypi_packages, SUBPACKAGES]
  rw [bind_eval (clean_dist_false_eval_pos hdist)]
  obtain ⟨hres, ⟨ext, htr⟩, hdirs⟩ := build_sub_loop_fail_first
    [str "core"]
    [[str "plugins", str "postgres"], [str "plugins", str "redshift"],
     [str "plugins", str "bigquery"], [str "plugins", str "snowflake"]] []
    { s with dirs := s.dirs.filter (fun q => !((p ++ [str "dist"]).isPrefixOf q)),
             files := s.files.filter (fun f => !((p ++ [str "dist"]).isPrefixOf f.1)),
             trace := s.trace ++ [.fsop (.rmtree (p ++ [str "dist"]))] }
    hbad
  obtain ⟨hsnd, hfst⟩ := @bind_fst_snd_err _ _ _ (fun sub_pkgs =>
    build_pypi_package w p >>= fun _ =>
      copy_all sub_pkgs (p ++ [str "dist"]) >>= fun _ => M.pure (p ++ [str "dist"])) _ _ hres
  refine ⟨?_, ⟨ext, ?_⟩, ?_⟩
  · exact hsnd
  · rw [hfst, htr]
    simp
  · rw [hfst]
    exact hdirs _ (not_mem_filter_self _ _)


theorem build_sub_loop_fail {w : World} {dbt : Path} {bout : Str} :
    ∀ (l1 : List Path) (sub : Path) (l2 : List Path),
    (∀ q ∈ l1, ∃ o, w.run (.setup_py (dbt ++ q)) = .ok o) →
    w.run (.setup_py (dbt ++ sub)) = .error bout →
    ∀ (acc : List Path) (s : PState),
    (build_sub_loop w dbt (l1 ++ sub :: l2) acc s).2 = .error (.calledProcessError bout) ∧
    ∃ ext, (build_sub_loop w dbt (l1 ++ sub :: l2) acc s).1.trace = s.trace ++ ext ∧
      ∀ e ∈ ext, (∃ q, e = .cmd (.setup_py q)) ∨ (∃ q, e = .fsop (.rmtree q)) := by
  intro l1
  induction l1 with
  | nil =>
    intro sub l2 hok hbad acc s
    simp only [List.nil_append]
    by_cases hex : s.pathExists ((dbt ++ sub) ++ [str "dist"]) = true
    · simp only [build_sub_loop]
      rw [bind_eval (clean_dist_false_eval_pos hex)]
      rw [bind_eval_err (build_pypi_package_err _ hbad)]
      refine ⟨rfl, [.fsop (.rmtree ((dbt ++ sub) ++ [str "dist"])),
        .cmd (.setup_py (dbt ++ sub))], by simp, ?_⟩
      intro e he
      simp only [List.mem_cons, List.not_mem_nil, or_false] at he
      rcases he with rfl | rfl
      · exact Or.inr ⟨_, rfl⟩
      · exact Or.inl ⟨_, rfl⟩
    · have hex' : s.pathExists ((dbt ++ sub) ++ [str "dist"]) = false := by simpa using hex
      simp only [build_sub_loop]
      rw [bind_eval (clean_dist_false_eval_neg hex')]
      rw [bind_eval_err (build_pypi_package_err _ hbad)]
      refine ⟨rfl, [.cmd (.setup_py (dbt ++ sub))], by simp, ?_⟩
      intro e he
      simp only [List.mem_cons, List.not_mem_nil, or_false] at he
      subst he
      exact Or.inl ⟨_, rfl⟩
  | cons q t ih =>
    intro sub l2 hok hbad acc s
    obtain ⟨oq, hoq⟩ := hok q (by simp)
    have ihs := ih sub l2 (fun r hr => hok r (by simp [hr])) hbad
    simp only [List.cons_append, build_sub_loop]
    by_cases hex : s.pathExists ((dbt ++ q) ++ [str "dist"]) = true
    · rw [bind_eval (clean_dist_false_eval_pos hex)]
      rw [bind_eval (build_pypi_package_ok _ hoq)]
      obtain ⟨h1, ext, h2, h3⟩ := ihs _ _
      refine ⟨h1, .fsop (.rmtree ((dbt ++ q) ++ [str "dist"])) ::
        .cmd (.setup_py (dbt ++ q)) :: ext, h2.trans (by simp), ?_⟩
      intro e he
      simp only [List.mem_cons] at he
      rcases he with rfl | rfl | he
      · exact Or.inr ⟨_, rfl⟩
      · exact Or.inl ⟨_, rfl⟩
      · exact h3 e he
    · have hex' : s.pathExists ((dbt ++ q) ++ [str "dist"]) = false := by simpa using hex
      rw [bind_eval (clean_dist_false_eval_neg hex')]
      rw [bind_eval (build_pypi_package_ok _ hoq)]
      obtain ⟨h1, ext, h2, h3⟩ := ihs _ _
      refine ⟨h1, .cmd (.setup_py (dbt ++ q)) :: ext, h2.trans (by simp), ?_⟩
      intro e he
      simp only [List.mem_cons] at he
      rcases he with rfl | he
      · exact Or.inl ⟨_, rfl⟩
      · exact h3 e he

theorem build_pypi_packages_fail {w : World} {p : Path} {bout : Str}
    {l1 : List Path} {sub : Path} {l2 : List Path}
    (hsubs : SUBPACKAGES = l1 ++ sub :: l2)
    (hok : ∀ q ∈ l1, ∃ o, w.run (.setup_py (p ++ q)) = .ok o)
    (hbad : w.run (.setup_py (p ++ sub)) = .error bout) (s : PState) :
    (build_pypi_packages w p s).2 = .error (.calledProcessError bout) ∧
    ∃ ext, (build_pypi_packages w p s).1.trace = s.trace ++ ext ∧
      ∀ e ∈ ext, (∃ q, e = .cmd (.setup_py q)) ∨ (∃ q, e = .fsop (.rmtree q)) := by
  simp only [build_pypi_packages, hsubs]
  by_cases hex : s.pathExists (p ++ [str "dist"]) = true
  · rw [bind_eval (clean_dist_false_eval_pos hex)]
    obtain ⟨h1, ext, h2, h3⟩ := build_sub_loop_fail l1 sub l2 hok hbad []
      { s with dirs := s.dirs.filter (fun q => !((p ++ [str "dist"]).isPrefixOf q)),
               files := s.files.filter (fun f => !((p ++ [str "dist"]).isPrefixOf f.1)),
               trace := s.trace ++ [.fsop (.rmtree (p ++ [str "dist"]))] }
    obtain ⟨hsnd, hfst⟩ := @bind_fst_snd_err _ _ _ (fun sub_pkgs =>
      build_pypi_package w p >>= fun _ =>
        copy_all sub_pkgs (p ++ [str "dist"]) >>= fun _ => M.pure (p ++ [str "dist"])) _ _ h1
    refine ⟨hsnd, .fsop (.rmtree (p ++ [str "dist"])) :: ext, ?_, ?_⟩
    · exact ((congrArg PState.trace hfst).trans h2).trans (by simp)
    · intro e he
      simp only [List.mem_cons] at he
      rcases he with rfl | he
      · exact Or.inr ⟨_, rfl⟩
      · exact h3 e he
  · have hex' : s.pathExists (p ++ [str "dist"]) = false := by simpa using hex
    rw [bind_eval (clean_dist_false_eval_neg hex')]
    obtain ⟨h1, ext, h2, h3⟩ := build_sub_loop_fail l1 sub l2 hok hbad [] s
    obtain ⟨hsnd, hfst⟩ := @bind_fst_snd_err _ _ _ (fun sub_pkgs =>
      build_pypi_package w p >>= fun _ =>
        copy_all sub_pkgs (p ++ [str "dist"]) >>= fun _ => M.pure (p ++ [str "dist"])) _ _ h1
    exact ⟨hsnd, ext, (congrArg PState.trace hfst).trans h2, h3⟩

/-- C2: when the external build tool exits non-zero on any subpackage
during the build stage (earlier subpackages building fine), the whole
`upgrade_to` run halts with a `CalledProcessError` carrying the build
captured output of the build tool, and the trace contains only the version bump, the
build invocations and `dist`-directory deletions: the publisher (`twine`),
the formula extractor (`pip`/`poet`), the confirmation prompt and every
later stage are never invoked. -/
theorem c2_build_failure_halts (w : World) (args : Arguments) (s0 : PState)
    (bout o0 : Str) (l1 : List Path) (sub : Path) (l2 : List Path)
    (hsubs : SUBPACKAGES = l1 ++ sub :: l2)
    (hbump : w.run (.bumpversion args.version args.part args.path) = .ok o0)
    (hok : ∀ q ∈ l1, ∃ o, w.run (.setup_py (args.path ++ q)) = .ok o)
    (hbad : w.run (.setup_py (args.path ++ sub)) = .error bout) :
    (upgrade_to w args s0).2 = .error (.calledProcessError bout) ∧
    ∃ ext, (upgrade_to w args s0).1.trace = s0.trace ++ ext ∧
      ∀ e ∈ ext, e = .cmd (.bumpversion args.version args.part args.path) ∨
        (∃ q, e = .cmd (.setup_py q)) ∨ (∃ q, e = .fsop (.rmtree q)) := by
  simp only [upgrade_to]
  rw [bind_eval (set_version_ok s0 hbump)]
  obtain ⟨h1, ext, h2, h3⟩ := build_pypi_packages_fail hsubs hok hbad
    { s0 with trace := s0.trace ++ [.cmd (.bumpversion args.version args.part args.path)] }
  obtain ⟨hsnd, hfst⟩ := @bind_fst_snd_err _ _ _ (fun dist_path =>
    upload_pypi_packages w dist_path true >>= fun _ =>
      input_prompt w (str "Ensure https://test.pypi.org/project/dbt/" ++ args.version.raw ++
        str "/ exists and looks reasonable") >>= fun _ =>
        upload_pypi_packages w dist_path false >>= fun _ =>
          build_homebrew_package w args.path args.version args.homebrew_path
            args.homebrew_set_default >>= fun _ => M.pure ()) _ _ h1
  refine ⟨hsnd, .cmd (.bumpversion args.version args.part args.path) :: ext, ?_, ?_⟩
  · exact ((congrArg PState.trace hfst).trans h2).trans (by simp)
  · intro e he
    simp only [List.mem_cons] at he
    rcases he with rfl | he
    · exact Or.inl rfl
    · exact Or.inr (h3 e he)



theorem set_version_trace (w : World) (p : Path) (v : Version) (pt : Str) (s : PState) :
    (set_version w p v pt s).1.trace = s.trace ++ [.cmd (.bumpversion v pt p)] := by
  cases h : w.run (.bumpversion v pt p) <;>
    simp [set_version, M.bind, M.pure, check_output, h]

theorem upload_trace (w : World) (dist : Path) (t : Bool) (s : PState) :
    (upload_pypi_packages w dist t s).1.trace =
      s.trace ++ [.cmd (.twine t (w.packages_in dist))] := by
  cases h : w.run (.twine t (w.packages_in dist)) <;>
    simp [upload_pypi_packages, M.bind, M.pure, check_output, h]

theorem input_trace (w : World) (m : Str) (s : PState) :
    (input_prompt w m s).1.trace = s.trace ++ [.inputPrompt m] := rfl

/-- C3: in every complete (successful) pipeline run the artifact upload is
invoked exactly twice — the trace decomposes around exactly two `twine`
invocations over the same package set, staging (`test = true`) first — and
the production upload sits immediately after the returned confirmation
prompt; no other upload events occur anywhere in the run. -/
theorem c3_staging_confirm_production (w : World) (args : Arguments) (s0 : PState)
    (hok : (upgrade_to w args s0).2 = .ok ()) :
    ∃ u1 u2 u4 P pr,
      (upgrade_to w args s0).1.trace =
        s0.trace ++ u1 ++ .cmd (.twine true P) :: u2 ++
          .inputPrompt pr :: .cmd (.twine false P) :: u4 ∧
      (∀ e ∈ u1 ++ u2 ++ u4, ∀ b Q, e ≠ .cmd (.twine b Q)) := by
  obtain ⟨sf, hsf⟩ : ∃ sf, upgrade_to w args s0 = (sf, .ok ()) :=
    ⟨(upgrade_to w args s0).1, by rw [← hok]⟩
  have hfst : (upgrade_to w args s0).1 = sf := by rw [hsf]
  rw [hfst]
  simp only [upgrade_to] at hsf
  obtain ⟨sA, uA, hA, hsf⟩ := bind_ok hsf
  obtain ⟨sB, distB, hB, hsf⟩ := bind_ok hsf
  obtain ⟨sC, uC, hC, hsf⟩ := bind_ok hsf
  obtain ⟨sD, uD, hD, hsf⟩ := bind_ok hsf
  obtain ⟨sE, uE, hE, hsf⟩ := bind_ok hsf
  obtain ⟨sF, fpF, hF, hsf⟩ := bind_ok hsf
  have hfF : sF = sf := by
    have : (sF, Except.ok ()) = (sf, Except.ok ()) := hsf
    exact (Prod.mk.injEq _ _ _ _).mp this |>.1
  subst hfF
  have tA : sA.trace = s0.trace ++ [.cmd (.bumpversion args.version args.part args.path)] := by
    have := set_version_trace w args.path args.version args.part s0
    rw [hA] at this
    exact this
  obtain ⟨extB, htB, hpB⟩ := @traceExt_build_pypi_packages
    (fun e => ∀ b Q, e ≠ .cmd (.twine b Q)) w args.path
    (fun q => by simp) (fun q => by simp) (fun q d => by simp) sA
  rw [hB] at htB
  have tC : sC.trace = sB.trace ++ [.cmd (.twine true (w.packages_in distB))] := by
    have := upload_trace w distB true sB
    rw [hC] at this
    exact this
  have tD : sD.trace = sC.trace ++
      [.inputPrompt (str "Ensure https://test.pypi.org/project/dbt/" ++ args.version.raw ++
        str "/ exists and looks reasonable")] := by
    have := input_trace w (str "Ensure https://test.pypi.org/project/dbt/" ++
      args.version.raw ++ str "/ exists and looks reasonable") sC
    rw [hD] at this
    exact this
  have tE : sE.trace = sD.trace ++ [.cmd (.twine false (w.packages_in distB))] := by
    have := upload_trace w distB false sD
    rw [hE] at this
    exact this
  obtain ⟨extF, htF, hpF⟩ := @traceExt_build_homebrew_package
    (fun e => ∀ b Q, e ≠ .cmd (.twine b Q)) w args.path args.version
    args.homebrew_path args.homebrew_set_default
    (fun q => by simp) (fun q => by simp) (fun r => by simp) (fun q => by simp)
    (fun q => by simp) (by simp) (fun q => by simp) (fun q => by simp) (by simp)
    (by simp) (fun q => by simp) (by simp) sE
  rw [hF] at htF
  refine ⟨.cmd (.bumpversion args.version args.part args.path) :: extB, [], extF,
    w.packages_in distB,
    str "Ensure https://test.pypi.org/project/dbt/" ++ args.version.raw ++
      str "/ exists and looks reasonable", ?_, ?_⟩
  · rw [htF, tE, tD, tC, htB, tA]
    simp [List.append_assoc]
  · intro e he
    simp only [List.append_nil, List.mem_append, List.mem_cons] at he
    rcases he with (rfl | he) | he
    · intro b Q
      simp
    · exact hpB e he
    · exact hpF e he



theorem take4_filename (v : Version) : List.take 4 v.homebrew_filename = str "dbt@" := rfl

theorem homebrew_filename_ne_dbt_rb (v : Version) : v.homebrew_filename ≠ str "dbt.rb" := by
  intro h
  have h4 := congrArg (List.take 4) h
  rw [take4_filename] at h4
  exact absurd h4 (by decide)

/-- C7: the default-pointer update is never executed.  First, no run of
`build_homebrew_package` ever removes a file or writes the default formula
`Formula/dbt.rb` (the operations unique to `set_default_homebrew_package`).
Second, with the set-default flag true no run can succeed: if it gets past
the commit it dies on the `assert False`.  Third, in an environment where
every external command succeeds, the flag-true run fails with exactly the
assertion error after the versioned formula commit has been invoked. -/
theorem c7_default_pointer_never_updated :
    (∀ (w : World) (dbt : Path) (v : Version) (hb : Path) (sd : Bool) (s : PState),
      ∃ ext, (build_homebrew_package w dbt v hb sd s).1.trace = s.trace ++ ext ∧
        ∀ e ∈ ext, (∀ q, e ≠ .fsop (.removeFile q)) ∧
          e ≠ .fsop (.write_text (hb ++ [str "Formula", str "dbt.rb"]))) ∧
    (∀ (w : World) (dbt : Path) (v : Version) (hb : Path) (s : PState) (fp : Path),
      (build_homebrew_package w dbt v hb true s).2 ≠ .ok fp) ∧
    ((build_homebrew_package allOkWorld [str "dbt"] ⟨str "0.15.2", 0, 15, 2, none, none⟩
        [str "hb"] true ⟨[], [], []⟩).2 =
      .error (.assertionError (str "should not be set!!!")) ∧
     .cmd (.git_commit (str "add dbt@0.15.2") [str "hb"]) ∈
      (build_homebrew_package allOkWorld [str "dbt"] ⟨str "0.15.2", 0, 15, 2, none, none⟩
        [str "hb"] true ⟨[], [], []⟩).1.trace) := by
  refine ⟨?_, ?_, ?_, ?_⟩
  · intro w dbt v hb sd s
    have hne : hb ++ [str "Formula", v.homebrew_filename] ≠
        hb ++ [str "Formula", str "dbt.rb"] := by
      intro h
      have h2 := List.append_cancel_left h
      simp only [List.cons.injEq, and_true] at h2
      exact homebrew_filename_ne_dbt_rb v h2.2
    exact @traceExt_build_homebrew_package
      (fun e => (∀ q, e ≠ .fsop (.removeFile q)) ∧
        e ≠ .fsop (.write_text (hb ++ [str "Formula", str "dbt.rb"])))
      w dbt v hb sd
      (fun q => ⟨fun r => by simp, by simp⟩) (fun q => ⟨fun r => by simp, by simp⟩)
      (fun r => ⟨fun q => by simp, by simp⟩) (fun q => ⟨fun r => by simp, by simp⟩)
      (fun q => ⟨fun r => by simp, by simp⟩)
      ⟨fun q => by simp, by simp [hne]⟩
      (fun q => ⟨fun r => by simp, by simp⟩) (fun q => ⟨fun r => by simp, by simp⟩)
      ⟨fun q => by simp, by simp⟩ ⟨fun q => by simp, by simp⟩
      (fun q => ⟨fun r => by simp, by simp⟩) ⟨fun q => by simp, by simp⟩ s
  · intro w dbt v hb s fp h
    obtain ⟨sf, hsf⟩ : ∃ sf, build_homebrew_package w dbt v hb true s = (sf, .ok fp) :=
      ⟨(build_homebrew_package w dbt v hb true s).1, by rw [← h]⟩
    simp only [build_homebrew_package] at hsf
    obtain ⟨s1, t1, h1, hsf⟩ := bind_ok hsf
    obtain ⟨s2, fp2, h2, hsf⟩ := bind_ok hsf
    obtain ⟨s3, u3, h3, hsf⟩ := bind_ok hsf
    obtain ⟨s4, u4, h4, hsf⟩ := bind_ok hsf
    obtain ⟨s5, u5, h5, hsf⟩ := bind_ok hsf
    have h5' : (assertFalse (str "should not be set!!!") >>= fun _ =>
        set_default_homebrew_package w t1 v hb) s4 = (s5, Except.ok u5) := h5
    have hcontra : (Except.error (PyError.assertionError (str "should not be set!!!")) :
        Except PyError Unit) = Except.ok u5 := congrArg Prod.snd h5'
    exact Except.noConfusion hcontra
  · rfl
  · decide



/-- C5 witness: the two end-to-end examples of the spec, obtained from the
general projection theorem at concrete inputs. -/
theorem c5_witness :
    (∃ v, Version.init (str "0.15.2") = some v ∧
      v.homebrew_class_name = str "DbtAT0152" ∧
      v.homebrew_filename = str "dbt@0.15.2.rb") ∧
    (∃ v, Version.init (str "0.16.0b1") = some v ∧
      v.homebrew_class_name = str "DbtAT0160B1" ∧
      v.homebrew_filename = str "dbt@0.16.0-b1.rb") := by
  constructor
  · obtain ⟨v, hv, hc, hf⟩ :=
      (c5_valid_version_projections 0 15 2 1 (str "b") (by decide) (by decide)).1
    have heq : coreStr 0 15 2 = str "0.15.2" := by decide
    rw [heq] at hv
    exact ⟨v, hv, hc.trans (by decide), hf.trans (by decide)⟩
  · obtain ⟨v, hv, hc, hf⟩ :=
      (c5_valid_version_projections 0 16 0 1 (str "b") (by decide) (by decide)).2
    have heq : coreStr 0 16 0 ++ str "b" ++ natToChars 1 = str "0.16.0b1" := by decide
    rw [heq] at hv
    exact ⟨v, hv, hc.trans (by decide), hf.trans (by decide)⟩

/-- C1 witness: a concrete first write succeeds, and the theorem then
yields the `AlreadyExists` failure of the second write. -/
theorem c1_witness :
    create_homebrew_formula ⟨str "u", str "h", str "d", ⟨str "0.15.2", 0, 15, 2, none, none⟩⟩
      ⟨str "0.15.2", 0, 15, 2, none, none⟩ [str "hb"]
      ((create_homebrew_formula ⟨str "u", str "h", str "d", ⟨str "0.15.2", 0, 15, 2, none, none⟩⟩
        ⟨str "0.15.2", 0, 15, 2, none, none⟩ [str "hb"] ⟨[], [], []⟩).1) =
      (((create_homebrew_formula ⟨str "u", str "h", str "d", ⟨str "0.15.2", 0, 15, 2, none, none⟩⟩
        ⟨str "0.15.2", 0, 15, 2, none, none⟩ [str "hb"] ⟨[], [], []⟩).1),
       .error (.valueError (str "Homebrew formula path already exists!"))) := by
  have h2 : (create_homebrew_formula ⟨str "u", str "h", str "d", ⟨str "0.15.2", 0, 15, 2, none, none⟩⟩
      ⟨str "0.15.2", 0, 15, 2, none, none⟩ [str "hb"] ⟨[], [], []⟩).2 =
      .ok ([str "hb"] ++ [str "Formula",
        Version.homebrew_filename ⟨str "0.15.2", 0, 15, 2, none, none⟩]) := rfl
  have h : create_homebrew_formula ⟨str "u", str "h", str "d", ⟨str "0.15.2", 0, 15, 2, none, none⟩⟩
      ⟨str "0.15.2", 0, 15, 2, none, none⟩ [str "hb"] ⟨[], [], []⟩ =
      ((create_homebrew_formula ⟨str "u", str "h", str "d", ⟨str "0.15.2", 0, 15, 2, none, none⟩⟩
        ⟨str "0.15.2", 0, 15, 2, none, none⟩ [str "hb"] ⟨[], [], []⟩).1,
       .ok ([str "hb"] ++ [str "Formula",
        Version.homebrew_filename ⟨str "0.15.2", 0, 15, 2, none, none⟩])) := by
    rw [← h2]
  exact (c1_no_double_write _ _ _ _ _ _ h).1

/-- C2 witness: with the `plugins/postgres` build failing, the whole
pipeline run surfaces exactly that captured output and stops. -/
theorem c2_witness :
    (upgrade_to postgresFailWorld
      ⟨⟨str "0.15.2", 0, 15, 2, none, none⟩, str "patch", [str "dbt"], [str "hb"], false⟩
      ⟨[], [], []⟩).2 = .error (.calledProcessError (str "build boom")) := by
  refine (c2_build_failure_halts postgresFailWorld _ _ (str "build boom") (str "")
    [[str "core"]] [str "plugins", str "postgres"]
    [[str "plugins", str "redshift"], [str "plugins", str "bigquery"],
     [str "plugins", str "snowflake"]] (by decide) rfl ?_ (by decide)).1
  intro q hq
  simp only [List.mem_singleton] at hq
  subst hq
  exact ⟨str "", by decide⟩

/-- C3 witness: the theorem applied to a fully successful concrete run. -/
theorem c3_witness :
    ∃ u1 u2 u4 P pr,
      (upgrade_to allOkWorld
        ⟨⟨str "0.15.2", 0, 15, 2, none, none⟩, str "patch", [str "dbt"], [str "hb"], false⟩
        ⟨[], [], []⟩).1.trace =
        ([] : List Event) ++ u1 ++ .cmd (.twine true P) :: u2 ++
          .inputPrompt pr :: .cmd (.twine false P) :: u4 ∧
      (∀ e ∈ u1 ++ u2 ++ u4, ∀ b Q, e ≠ .cmd (.twine b Q)) :=
  c3_staging_confirm_production allOkWorld
    ⟨⟨str "0.15.2", 0, 15, 2, none, none⟩, str "patch", [str "dbt"], [str "hb"], false⟩
    ⟨[], [], []⟩ (by decide)

/-- C7 witness: the never-succeeds part of the theorem at a concrete
flag-true run. -/
theorem c7_witness :
    (build_homebrew_package allOkWorld [str "dbt"] ⟨str "0.15.2", 0, 15, 2, none, none⟩
      [str "hb"] true ⟨[], [], []⟩).2 ≠ .ok [str "x"] :=
  c7_default_pointer_never_updated.2.1 allOkWorld [str "dbt"]
    ⟨str "0.15.2", 0, 15, 2, none, none⟩ [str "hb"] ⟨[], [], []⟩ [str "x"]

/-- C10 witness: with the `core` build failing and a pre-existing aggregate
`dist` directory, the stage fails and the directory is gone. -/
theorem c10_witness :
    (build_pypi_packages coreFailWorld [str "dbt"] ⟨[], [[str "dbt", str "dist"]], []⟩).2 =
      .error (.calledProcessError (str "core boom")) ∧
    ([str "dbt"] ++ [str "dist"]) ∉
      (build_pypi_packages coreFailWorld [str "dbt"] ⟨[], [[str "dbt", str "dist"]], []⟩).1.dirs := by
  have h := c10_dist_deleted_before_builds coreFailWorld [str "dbt"]
    ⟨[], [[str "dbt", str "dist"]], []⟩ (str "core boom") (by decide) (by decide)
  exact ⟨h.1, h.2.2⟩


end BuildDbt
